import Mathlib

/-!
# crossplane-runtime: the unstructured managed resource

A shallow embedding of `pkg/resource/unstructured/managed/managed.go`.

The Go methods mutate the receiver in place; here every method takes the
resource and returns the resource it leaves behind (setters) or the value it
hands back (getters).  A Go pointer result that may be `nil` is an `Option`.

`managed.go` calls into two packages of the repository whose sources are not
part of this development: `pkg/fieldpath` (the path engine) and the condition
types of `apis/core/v1alpha1`.  Their definitions below follow the written
specification and say so in their doc comments.

The namespace `deepcopy` embeds `apis/core/v1alpha1/zz_generated.deepcopy.go`.
There pointers and slices matter, so a value is held together with a `Heap`:
a nullable reference is `none` or the address of a record, a slice is `none`
or the address of its backing array, `new` and `make` hand out an address not
in use, and every `DeepCopyInto` returns the memory it leaves with the value
written to `out`.
-/

namespace fieldpath

/-- Modelled from the spec: the Document of section 3, `a nested composite of
mappings (string key to value), ordered sequences, and scalars
(string/number/bool/null)`.  The Go source of `pkg/fieldpath` is missing. -/
inductive Value where
  | null
  | bool (b : Bool)
  | number (n : Int)
  | string (s : String)
  | array (items : List Value)
  | object (fields : List (String × Value))

/-- A mapping of the Document: the Go `map[string]interface{}` held by a
resource, as the list of its bindings. -/
abbrev Object := List (String × Value)

/-- Modelled from the spec: a path segment is `either a field name (mapping
lookup) or an integer index (sequence lookup)`. -/
inductive Segment where
  | field (name : String)
  | index (i : Nat)
  deriving DecidableEq, Repr

/-- Modelled from the spec: the error taxonomy of section 7. -/
inductive Error where
  | PathSyntaxError
  | NotFoundError
  | DecodeError
  | InvalidPathError
  deriving DecidableEq, Repr

/-- Modelled from the spec: mapping lookup (`pkg/fieldpath` is missing), the
value a mapping holds under key `k`, if any. -/
def lookupField (k : String) : Object → Option Value
  | [] => none
  | (k', v) :: rest => if k' = k then some v else lookupField k rest

/-- Modelled from the spec: the write of one field of a mapping
(`pkg/fieldpath` is missing).  An existing binding of `k` is replaced where it
stands, a new one is added. -/
def putField (k : String) (v : Value) : Object → Object
  | [] => [(k, v)]
  | (k', v') :: rest => if k' = k then (k, v) :: rest else (k', v') :: putField k v rest

/-- Modelled from the spec: the state of the path lexer (`pkg/fieldpath` is
missing), the characters of the field name being read, or the digits of the
index being read between brackets. -/
inductive LexState where
  | name (chars : List Char) (afterIndex : Bool)
  | digits (n : Option Nat)

/-- Modelled from the spec: the decimal value of a digit character of an
index segment (`pkg/fieldpath` is missing). -/
def digitOf (ch : Char) : Option Nat :=
  if ch.isDigit then some (ch.toNat - 48) else none

/-- Modelled from the spec: the field-and-index grammar of paths
(`spec.items[2].name`); `unbalanced index brackets` and an `empty segment`
are a `PathSyntaxError`.  `acc` holds the segments read so far, last first. -/
def parseChars : List Char → LexState → List Segment → Except Error (List Segment)
  | [], .name [] false, _ => .error .PathSyntaxError
  | [], .name [] true, acc => .ok acc.reverse
  | [], .name (c :: cs) _, acc => .ok (Segment.field (String.mk (c :: cs).reverse) :: acc).reverse
  | [], .digits _, _ => .error .PathSyntaxError
  | ch :: rest, .name cur afterIndex, acc =>
      if ch = '.' then
        match cur, afterIndex with
        | [], false => .error .PathSyntaxError
        | [], true => parseChars rest (.name [] false) acc
        | c :: cs, _ => parseChars rest (.name [] false) (Segment.field (String.mk (c :: cs).reverse) :: acc)
      else if ch = '[' then
        match cur with
        | [] => parseChars rest (.digits none) acc
        | c :: cs => parseChars rest (.digits none) (Segment.field (String.mk (c :: cs).reverse) :: acc)
      else if ch = ']' then .error .PathSyntaxError
      else
        if afterIndex then .error .PathSyntaxError
        else parseChars rest (.name (ch :: cur) false) acc
  | ch :: rest, .digits n, acc =>
      if ch = ']' then
        match n with
        | none => .error .PathSyntaxError
        | some i => parseChars rest (.name [] true) (Segment.index i :: acc)
      else
        match digitOf ch with
        | none => .error .PathSyntaxError
        | some d => parseChars rest (.digits (some (n.getD 0 * 10 + d))) acc

/-- Modelled from the spec: `fieldpath.Parse`, from a path string to its
segments. -/
def Parse (path : String) : Except Error (List Segment) :=
  parseChars path.toList (.name [] false) []

/-- Modelled from the spec: `Resolve(doc, path)` of section 4.1.  `a field
segment on a non-mapping, or an index segment on a non-sequence, or an index
segment with a value >= sequence length, yields NotFound`. -/
def getValue : Value → List Segment → Except Error Value
  | v, [] => .ok v
  | .object fs, .field k :: rest =>
      match lookupField k fs with
      | some v => getValue v rest
      | none => .error .NotFoundError
  | .array xs, .index i :: rest =>
      match xs.get? i with
      | some v => getValue v rest
      | none => .error .NotFoundError
  | _, _ :: _ => .error .NotFoundError

/-- Modelled from the spec: the container `SetValue` creates for an absent
ancestor (`pkg/fieldpath` is missing), a sequence when the next segment is an
index, a mapping otherwise. -/
def emptyFor : List Segment → Value
  | .index _ :: _ => .array []
  | _ => .object []

/-- Modelled from the spec: the write of `SetValue(doc, path, value)`
(section 4.1), `creating intermediate mappings/sequences as needed when
ancestors are absent`; an index beyond the sequence, or a segment that does
not fit the value found there, is an `InvalidPathError`. -/
def setValue : Value → List Segment → Value → Except Error Value
  | _, [], v => .ok v
  | .object fs, .field k :: rest, v =>
      match setValue ((lookupField k fs).getD (emptyFor rest)) rest v with
      | .ok child => .ok (.object (putField k child fs))
      | .error e => .error e
  | .array xs, .index i :: rest, v =>
      match xs.get? i with
      | some x =>
          match setValue x rest v with
          | .ok child => .ok (.array (xs.set i child))
          | .error e => .error e
      | none => .error .InvalidPathError
  | _, _ :: _, _ => .error .InvalidPathError

/-- Modelled from the spec: `fieldpath.Paved` (missing), a mapping with path
access. -/
structure Paved where
  object : Object

/-- Modelled from the spec: `fieldpath.Pave` (missing), which wraps the
mapping of a resource. -/
def Pave (o : Object) : Paved := ⟨o⟩

/-- Modelled from the spec: `GetValue`, parse the path and resolve it;
absence is a `NotFoundError`. -/
def Paved.GetValue (p : Paved) (path : String) : Except Error Value :=
  match Parse path with
  | .error e => .error e
  | .ok segs => getValue (.object p.object) segs

/-- Modelled from the spec: `GetInto(doc, path, targetShape)` of section 4.1.
`decode` is the structural decode into the shape of the caller's target; the
result is what the target holds afterwards. -/
def Paved.GetValueInto {α : Type} (p : Paved) (path : String)
    (decode : Value → Except Error α) : Except Error α :=
  match p.GetValue path with
  | .error e => .error e
  | .ok v => decode v

/-- Modelled from the spec: `SetValue(doc, path, value)` of section 4.1 on
the encoded value.  A failed write leaves no trace: the caller keeps the
mapping it had. -/
def Paved.SetValue (p : Paved) (path : String) (v : Value) : Except Error Paved :=
  match Parse path with
  | .error e => .error e
  | .ok segs =>
      match setValue (.object p.object) segs v with
      | .ok (.object fs) => .ok ⟨fs⟩
      | .ok _ => .error .InvalidPathError
      | .error e => .error e

/-- Modelled from the spec: structural decode into a string target
(`pkg/fieldpath` is missing); any other shape is a `DecodeError`. -/
def decodeString : Value → Except Error String
  | .string s => .ok s
  | _ => .error .DecodeError

/-- Modelled from the spec: structural decode of a string field of a record
(`pkg/fieldpath` is missing); an absent field leaves the target field at its
zero value. -/
def decodeStringField (k : String) (fs : Object) : Except Error String :=
  match lookupField k fs with
  | none => .ok ""
  | some v => decodeString v

end fieldpath

namespace v1alpha1

open fieldpath

/-- Modelled from the spec: the timestamp of a condition (`metav1.Time`), a
compound value with a copy rule of its own; here a number of seconds. -/
structure Time where
  seconds : Int := 0
  deriving DecidableEq, Repr

/-- Modelled from the spec: `Status: one of {True, False, Unknown}`, and the
zero-value condition has `Status = Unknown`. -/
inductive ConditionStatus where
  | ConditionUnknown
  | ConditionTrue
  | ConditionFalse
  deriving DecidableEq, Repr

/-- Modelled from the spec: `Condition` of section 3.  The field `Type` of the
source is `Type_` here. -/
structure Condition where
  Type_ : String := ""
  Status : ConditionStatus := .ConditionUnknown
  LastTransitionTime : Time := {}
  Reason : String := ""
  Message : String := ""
  deriving DecidableEq, Repr

/-- The Go struct `ConditionedStatus`, as `zz_generated.deepcopy.go` shows it:
one slice field `Conditions`, which may be `nil` (`none`). -/
structure ConditionedStatus where
  Conditions : Option (List Condition) := none
  deriving DecidableEq, Repr

/-- The conditions of a status as a list: a `nil` slice has no elements. -/
def ConditionedStatus.list (s : ConditionedStatus) : List Condition :=
  s.Conditions.getD []

/-- Modelled from the spec: `SecretReference`, the record of a secret,
with its name and namespace. -/
structure SecretReference where
  Name : String := ""
  Namespace : String := ""
  deriving DecidableEq, Repr

/-- Modelled from the spec: `Reference`, a record naming another resource. -/
structure Reference where
  Name : String := ""
  deriving DecidableEq, Repr

/-- The Go type `DeletionPolicy`: the source converts strings to it. -/
abbrev DeletionPolicy := String

/-- Modelled from the spec (section 4.2): what replaces an existing condition
when a condition `new` of the same type is set.  `if its Status is unchanged,
keep the existing LastTransitionTime (only Reason/Message are refreshed)`;
`if Status differs, replace the entire condition`. -/
def mergeCondition (existing new : Condition) : Condition :=
  if existing.Status = new.Status then
    { new with LastTransitionTime := existing.LastTransitionTime }
  else new

/-- Modelled from the spec (section 4.2): set one condition.  A condition of
the same type is replaced `in place at the existing position`; `if no
condition of that Type exists, append it at the end`. -/
def setCondition : List Condition → Condition → List Condition
  | [], new => [new]
  | existing :: rest, new =>
      if existing.Type_ = new.Type_ then mergeCondition existing new :: rest
      else existing :: setCondition rest new

/-- Modelled from the spec (section 4.2): an argument of a call takes the
place of an earlier argument of its type, whole, and otherwise comes after the
arguments before it. -/
def supersede : List Condition → Condition → List Condition
  | [], new => [new]
  | earlier :: rest, new =>
      if earlier.Type_ = new.Type_ then new :: rest else earlier :: supersede rest new

/-- Modelled from the spec (section 4.2): the arguments of one call that take
effect, in argument order.  `Later arguments with the same Type as an earlier
argument in the same call win`: of the arguments of one type only the last is
left, so that `SetConditions(C1, C2)` with two conditions of one type stores a
condition `equal to C2` (section 8). -/
def winners (c : List Condition) : List Condition :=
  c.foldl supersede []

/-- Modelled from the spec: `ConditionedStatus.SetConditions`; `multiple
conditions passed in one call are applied in argument order; later arguments
with the same Type as an earlier argument in the same call win`.  Each
argument that takes effect is set against the sequence by the rule of
`setCondition`. -/
def ConditionedStatus.SetConditions (s : ConditionedStatus) (c : List Condition) :
    ConditionedStatus :=
  (winners c).foldl (fun acc new => ⟨some (setCondition acc.list new)⟩) s

/-- Modelled from the spec: `ConditionedStatus.GetCondition`, `the matching
condition, or a zero-value Condition if none exists`. -/
def ConditionedStatus.GetCondition (s : ConditionedStatus) (ct : String) : Condition :=
  match s.list.find? (fun c => decide (c.Type_ = ct)) with
  | some c => c
  | none => {}

/-- Modelled from the spec: generic representation of a condition status
(the encoding of `apis/core/v1alpha1` values is missing). -/
def encodeStatus : ConditionStatus → Value
  | .ConditionUnknown => .string "Unknown"
  | .ConditionTrue => .string "True"
  | .ConditionFalse => .string "False"

/-- Modelled from the spec: structural decode of a condition status; a
string outside the enumeration is a `DecodeError`. -/
def decodeStatus : Value → Except Error ConditionStatus
  | .string s =>
      if s = "Unknown" then .ok .ConditionUnknown
      else if s = "True" then .ok .ConditionTrue
      else if s = "False" then .ok .ConditionFalse
      else .error .DecodeError
  | _ => .error .DecodeError

/-- Modelled from the spec: generic representation of a timestamp, a
scalar. -/
def encodeTime (t : Time) : Value := .number t.seconds

/-- Modelled from the spec: structural decode of a timestamp. -/
def decodeTime : Value → Except Error Time
  | .number n => .ok ⟨n⟩
  | _ => .error .DecodeError

/-- Modelled from the spec: generic representation of a condition, a
mapping of its five fields. -/
def encodeCondition (c : Condition) : Value :=
  .object [("type", .string c.Type_), ("status", encodeStatus c.Status),
    ("lastTransitionTime", encodeTime c.LastTransitionTime),
    ("reason", .string c.Reason), ("message", .string c.Message)]

/-- Modelled from the spec: structural decode of a condition, a mapping
whose known fields have the shape of the target; absent fields stay at their
zero value, other fields are not looked at. -/
def decodeCondition : Value → Except Error Condition
  | .object fs =>
      match decodeStringField "type" fs with
      | .error e => .error e
      | .ok ty =>
      match (match lookupField "status" fs with
             | none => Except.ok ConditionStatus.ConditionUnknown
             | some v => decodeStatus v) with
      | .error e => .error e
      | .ok st =>
      match (match lookupField "lastTransitionTime" fs with
             | none => Except.ok ({} : Time)
             | some v => decodeTime v) with
      | .error e => .error e
      | .ok t =>
      match decodeStringField "reason" fs with
      | .error e => .error e
      | .ok r =>
      match decodeStringField "message" fs with
      | .error e => .error e
      | .ok m => .ok ⟨ty, st, t, r, m⟩
  | _ => .error .DecodeError

/-- Modelled from the spec: structural decode of every element of a
sequence of conditions. -/
def decodeConditionList : List Value → Except Error (List Condition)
  | [] => .ok []
  | v :: rest =>
      match decodeCondition v with
      | .error e => .error e
      | .ok c =>
          match decodeConditionList rest with
          | .error e => .error e
          | .ok cs => .ok (c :: cs)

/-- Modelled from the spec: generic representation of a slice of
conditions, `null` for a `nil` slice, a sequence otherwise. -/
def encodeConditions : Option (List Condition) → Value
  | none => .null
  | some cs => .array (cs.map encodeCondition)

/-- Modelled from the spec: structural decode of a slice of conditions;
`null` gives the `nil` slice, a scalar is a `DecodeError`. -/
def decodeConditions : Value → Except Error (Option (List Condition))
  | .null => .ok none
  | .array xs =>
      match decodeConditionList xs with
      | .error e => .error e
      | .ok cs => .ok (some cs)
  | _ => .error .DecodeError

/-- Modelled from the spec: structural decode of the status region into a
`ConditionedStatus`; the conditions are inline, under the field `conditions`,
and the other fields of the region are not part of the decoded shape. -/
def decodeConditionedStatus : Value → Except Error ConditionedStatus
  | .object fs =>
      match lookupField "conditions" fs with
      | none => .ok {}
      | some v =>
          match decodeConditions v with
          | .error e => .error e
          | .ok cs => .ok ⟨cs⟩
  | _ => .error .DecodeError

/-- Modelled from the spec: generic representation of a
`*SecretReference`, `null` for `nil`. -/
def encodeSecretReference : Option SecretReference → Value
  | none => .null
  | some r => .object [("name", .string r.Name), ("namespace", .string r.Namespace)]

/-- Modelled from the spec: structural decode into a `SecretReference`;
`a scalar where a mapping is expected` is a `DecodeError`. -/
def decodeSecretReference : Value → Except Error SecretReference
  | .object fs =>
      match decodeStringField "name" fs with
      | .error e => .error e
      | .ok n =>
          match decodeStringField "namespace" fs with
          | .error e => .error e
          | .ok ns => .ok ⟨n, ns⟩
  | _ => .error .DecodeError

/-- Modelled from the spec: generic representation of a `*Reference`,
`null` for `nil`. -/
def encodeReference : Option Reference → Value
  | none => .null
  | some r => .object [("name", .string r.Name)]

/-- Modelled from the spec: structural decode into a `Reference`; a scalar
where a mapping is expected is a `DecodeError`. -/
def decodeReference : Value → Except Error Reference
  | .object fs =>
      match decodeStringField "name" fs with
      | .error e => .error e
      | .ok n => .ok ⟨n⟩
  | _ => .error .DecodeError

end v1alpha1

namespace managed

open fieldpath v1alpha1

/-- An Unstructured managed resource: the embedded `unstructured.Unstructured`
with its `Object` mapping. -/
structure Unstructured where
  Object : fieldpath.Object

/-- `New` returns a new unstructured managed resource: an empty mapping, to
which the options are applied in order.  An option (`Option` in the source)
is a function on the resource. -/
def New (opts : List (Unstructured → Unstructured)) : Unstructured :=
  opts.foldl (fun c f => f c) ⟨[]⟩

/-- `GetWriteConnectionSecretToReference` of this managed resource. -/
def Unstructured.GetWriteConnectionSecretToReference (c : Unstructured) :
    Option SecretReference :=
  match (Pave c.Object).GetValueInto "spec.writeConnectionSecretToRef" decodeSecretReference with
  | .error _ => none
  | .ok out => some out

/-- `SetWriteConnectionSecretToReference` of this managed resource. -/
def Unstructured.SetWriteConnectionSecretToReference (c : Unstructured)
    (ref : Option SecretReference) : Unstructured :=
  match (Pave c.Object).SetValue "spec.writeConnectionSecretToRef" (encodeSecretReference ref) with
  | .error _ => c
  | .ok p => ⟨p.object⟩

/-- `GetCondition` of this managed resource. -/
def Unstructured.GetCondition (c : Unstructured) (ct : String) : Condition :=
  match (Pave c.Object).GetValueInto "status" decodeConditionedStatus with
  | .error _ => {}
  | .ok conditioned => conditioned.GetCondition ct

/-- The `conditioned` of `SetConditions` after its read of `status`: the
decoded status region, or the zero value it started from when the read
failed. -/
def Unstructured.conditioned (c : Unstructured) : ConditionedStatus :=
  match (Pave c.Object).GetValueInto "status" decodeConditionedStatus with
  | .error _ => {}
  | .ok conditioned => conditioned

/-- `SetConditions` of this managed resource. -/
def Unstructured.SetConditions (c : Unstructured) (conditions : List Condition) :
    Unstructured :=
  let conditioned := c.conditioned.SetConditions conditions
  match (Pave c.Object).SetValue "status.conditions" (encodeConditions conditioned.Conditions) with
  | .error _ => c
  | .ok p => ⟨p.object⟩

/-- `WithConditions` returns an option that sets the supplied conditions on an
unstructured managed resource. -/
def WithConditions (c : List Condition) : Unstructured → Unstructured :=
  fun cr => cr.SetConditions c

/-- `GetDeletionPolicy` of this managed resource.  The target `out` is a
string passed by value, so the read cannot store into it: both branches hand
back the empty policy. -/
def Unstructured.GetDeletionPolicy (c : Unstructured) : DeletionPolicy :=
  let out := ""
  match (Pave c.Object).GetValueInto "spec.writeConnectionSecretToRef" decodeString with
  | .error _ => ""
  | .ok _ => out

/-- `SetDeletionPolicy` of this managed resource. -/
def Unstructured.SetDeletionPolicy (c : Unstructured) (r : DeletionPolicy) : Unstructured :=
  match (Pave c.Object).SetValue "spec.deletionPolicy" (.string r) with
  | .error _ => c
  | .ok p => ⟨p.object⟩

/-- `GetProviderConfigReference` of this managed resource. -/
def Unstructured.GetProviderConfigReference (c : Unstructured) : Option Reference :=
  match (Pave c.Object).GetValueInto "spec.providerConfigRef" decodeReference with
  | .error _ => none
  | .ok out => some out

/-- `SetProviderConfigReference` of this managed resource. -/
def Unstructured.SetProviderConfigReference (c : Unstructured) (r : Option Reference) :
    Unstructured :=
  match (Pave c.Object).SetValue "spec.providerConfigRef" (encodeReference r) with
  | .error _ => c
  | .ok p => ⟨p.object⟩

/-- `GetProviderReference` of this managed resource.
Deprecated: use `GetProviderConfigReference`. -/
def Unstructured.GetProviderReference (c : Unstructured) : Option Reference :=
  match (Pave c.Object).GetValueInto "spec.providerRef" decodeReference with
  | .error _ => none
  | .ok out => some out

/-- `SetProviderReference` of this managed resource.
Deprecated: use `SetProviderConfigReference`. -/
def Unstructured.SetProviderReference (c : Unstructured) (r : Option Reference) :
    Unstructured :=
  match (Pave c.Object).SetValue "spec.providerRef" (encodeReference r) with
  | .error _ => c
  | .ok p => ⟨p.object⟩

end managed

namespace v1

/-- Modelled from the spec: `ObjectReference` of `k8s.io/api/core/v1`, a
`small value record (name, namespace, optionally API-group/kind)`. -/
structure ObjectReference where
  APIVersion : String := ""
  Kind : String := ""
  Namespace : String := ""
  Name : String := ""
  deriving DecidableEq, Repr

/-- Modelled from the spec: `LocalObjectReference` of `k8s.io/api/core/v1`, a
value record naming a resource of the same namespace. -/
structure LocalObjectReference where
  Name : String := ""
  deriving DecidableEq, Repr

end v1

namespace v1alpha1

/-- The copy rule of a timestamp (`metav1.Time.DeepCopyInto`, of
`k8s.io/apimachinery`): the value is assigned. -/
def Time.DeepCopyInto (t : Time) : Time := t

/-- `Condition.DeepCopyInto`: `*out = *in`, then the timestamp by its own
rule.  The result is what `out` holds afterwards. -/
def Condition.DeepCopyInto (inp : Condition) : Condition :=
  let out := inp
  { out with LastTransitionTime := inp.LastTransitionTime.DeepCopyInto }

/-- `Condition.DeepCopy`: `nil` for `nil`, a new condition otherwise. -/
def Condition.DeepCopy : Option Condition → Option Condition
  | none => none
  | some inp => some inp.DeepCopyInto

end v1alpha1

namespace deepcopy

open v1alpha1

/-- An address of the memory the copies are made in. -/
abbrev Addr := Nat

/-- The memory behind the pointers and slices of a resource: the
`ObjectReference` records, the `LocalObjectReference` records and the backing
arrays of condition slices, each found at its address. -/
structure Heap where
  objectReferences : List v1.ObjectReference := []
  localObjectReferences : List v1.LocalObjectReference := []
  conditions : List (List Condition) := []
  deriving DecidableEq, Repr

/-- Go `new(v1.ObjectReference)`: a zero record at an address not in use. -/
def Heap.newObjectReference (h : Heap) : Heap × Addr :=
  ({ h with objectReferences := h.objectReferences ++ [{}] }, h.objectReferences.length)

/-- The record a `*v1.ObjectReference` leads to. -/
def Heap.getObjectReference (h : Heap) (a : Addr) : v1.ObjectReference :=
  h.objectReferences.getD a {}

/-- Assignment through a `*v1.ObjectReference`. -/
def Heap.setObjectReference (h : Heap) (a : Addr) (r : v1.ObjectReference) : Heap :=
  { h with objectReferences := h.objectReferences.set a r }

/-- Go `new(v1.LocalObjectReference)`: a zero record at an address not in
use. -/
def Heap.newLocalObjectReference (h : Heap) : Heap × Addr :=
  ({ h with localObjectReferences := h.localObjectReferences ++ [{}] },
    h.localObjectReferences.length)

/-- The record a `*v1.LocalObjectReference` leads to. -/
def Heap.getLocalObjectReference (h : Heap) (a : Addr) : v1.LocalObjectReference :=
  h.localObjectReferences.getD a {}

/-- Assignment through a `*v1.LocalObjectReference`. -/
def Heap.setLocalObjectReference (h : Heap) (a : Addr) (r : v1.LocalObjectReference) : Heap :=
  { h with localObjectReferences := h.localObjectReferences.set a r }

/-- Go `make([]Condition, n)`: a backing array of `n` zero conditions at an
address not in use. -/
def Heap.makeConditions (h : Heap) (n : Nat) : Heap × Addr :=
  ({ h with conditions := h.conditions ++ [List.replicate n {}] }, h.conditions.length)

/-- Go `len` of the condition slice at `a`. -/
def Heap.len (h : Heap) (a : Addr) : Nat :=
  (h.conditions.getD a []).length

/-- The element `i` of the condition slice at `a`. -/
def Heap.getCondition (h : Heap) (a : Addr) (i : Nat) : Condition :=
  (h.conditions.getD a []).getD i {}

/-- Assignment to the element `i` of the condition slice at `a`. -/
def Heap.setCondition (h : Heap) (a : Addr) (i : Nat) (c : Condition) : Heap :=
  { h with conditions := h.conditions.set a ((h.conditions.getD a []).set i c) }

/-- The block the generated code has for a field `X` of type
`*v1.ObjectReference`:
`if in.X != nil { in, out := &in.X, &out.X; *out = new(v1.ObjectReference); **out = **in }`.
The result is the memory afterwards and what `out.X` holds, which after
`*out = *in` was `in.X`. -/
def copyObjectReference (h : Heap) (x : Option Addr) : Heap × Option Addr :=
  match x with
  | none => (h, none)
  | some a =>
      let (h1, b) := h.newObjectReference
      (h1.setObjectReference b (h1.getObjectReference a), some b)

/-- The same block for a field of type `*v1.LocalObjectReference`. -/
def copyLocalObjectReference (h : Heap) (x : Option Addr) : Heap × Option Addr :=
  match x with
  | none => (h, none)
  | some a =>
      let (h1, b) := h.newLocalObjectReference
      (h1.setLocalObjectReference b (h1.getLocalObjectReference a), some b)

/-- `BindingStatus` in memory: fields held by value, which `*out = *in`
copies. -/
structure BindingStatus where
  Others : List (String × String) := []
  deriving DecidableEq, Repr

/-- `BindingStatus.DeepCopyInto`: `*out = *in`. -/
def BindingStatus.DeepCopyInto (inp : BindingStatus) : BindingStatus := inp

/-- `BindingStatus.DeepCopy`. -/
def BindingStatus.DeepCopy : Option BindingStatus → Option BindingStatus
  | none => none
  | some inp => some inp.DeepCopyInto

/-- `ConditionedStatus` in memory: its slice `Conditions` is `nil` (`none`) or
leads to a backing array. -/
structure ConditionedStatus where
  Conditions : Option Addr := none
  deriving DecidableEq, Repr

/-- `ConditionedStatus.DeepCopyInto`: `*out = *in`; for a non-nil slice a new
array of the same length, filled element by element with
`(*in)[i].DeepCopyInto(&(*out)[i])`. -/
def ConditionedStatus.DeepCopyInto (inp : ConditionedStatus) (h : Heap) :
    Heap × ConditionedStatus :=
  let out := inp
  match inp.Conditions with
  | none => (h, out)
  | some a =>
      let (h1, b) := h.makeConditions (h.len a)
      ((List.range (h.len a)).foldl
          (fun hh i => hh.setCondition b i (hh.getCondition a i).DeepCopyInto) h1,
        { out with Conditions := some b })

/-- `ConditionedStatus.DeepCopy`: `nil` for `nil`, otherwise a new
`ConditionedStatus` that `DeepCopyInto` fills. -/
def ConditionedStatus.DeepCopy (inp : Option ConditionedStatus) (h : Heap) :
    Heap × Option ConditionedStatus :=
  match inp with
  | none => (h, none)
  | some s => ((s.DeepCopyInto h).1, some (s.DeepCopyInto h).2)

/-- `NonPortableClassSpecTemplate` in memory: the nullable
`ProviderReference`, and its other fields, held by value. -/
structure NonPortableClassSpecTemplate where
  ProviderReference : Option Addr := none
  Others : List (String × String) := []
  deriving DecidableEq, Repr

/-- `NonPortableClassSpecTemplate.DeepCopyInto`. -/
def NonPortableClassSpecTemplate.DeepCopyInto (inp : NonPortableClassSpecTemplate)
    (h : Heap) : Heap × NonPortableClassSpecTemplate :=
  let out := inp
  let (h1, p) := copyObjectReference h inp.ProviderReference
  (h1, { out with ProviderReference := p })

/-- `NonPortableClassSpecTemplate.DeepCopy`. -/
def NonPortableClassSpecTemplate.DeepCopy (inp : Option NonPortableClassSpecTemplate)
    (h : Heap) : Heap × Option NonPortableClassSpecTemplate :=
  match inp with
  | none => (h, none)
  | some s => ((s.DeepCopyInto h).1, some (s.DeepCopyInto h).2)

/-- `metav1.TypeMeta` (of `k8s.io/apimachinery`), held by value. -/
structure TypeMeta where
  Kind : String := ""
  APIVersion : String := ""
  deriving DecidableEq, Repr

/-- `metav1.ObjectMeta` (of `k8s.io/apimachinery`), held by value: its own
`DeepCopyInto` yields an equal value that shares nothing. -/
structure ObjectMeta where
  Name : String := ""
  Namespace : String := ""
  Labels : List (String × String) := []
  deriving DecidableEq, Repr

/-- The copy rule of `metav1.ObjectMeta`. -/
def ObjectMeta.DeepCopyInto (inp : ObjectMeta) : ObjectMeta := inp

/-- `PortableClass` in memory. -/
structure PortableClass where
  TypeMeta : TypeMeta := {}
  ObjectMeta : ObjectMeta := {}
  NonPortableClassReference : Option Addr := none
  deriving DecidableEq, Repr

/-- `PortableClass.DeepCopyInto`. -/
def PortableClass.DeepCopyInto (inp : PortableClass) (h : Heap) : Heap × PortableClass :=
  let out := inp
  let out := { out with TypeMeta := inp.TypeMeta }
  let out := { out with ObjectMeta := inp.ObjectMeta.DeepCopyInto }
  let (h1, p) := copyObjectReference h inp.NonPortableClassReference
  (h1, { out with NonPortableClassReference := p })

/-- `PortableClass.DeepCopy`. -/
def PortableClass.DeepCopy (inp : Option PortableClass) (h : Heap) :
    Heap × Option PortableClass :=
  match inp with
  | none => (h, none)
  | some s => ((s.DeepCopyInto h).1, some (s.DeepCopyInto h).2)

/-- `ResourceClaimSpec` in memory: `WriteConnectionSecretToReference` is held
by value, the two references are nullable. -/
structure ResourceClaimSpec where
  WriteConnectionSecretToReference : v1.LocalObjectReference := {}
  PortableClassReference : Option Addr := none
  ResourceReference : Option Addr := none
  Others : List (String × String) := []
  deriving DecidableEq, Repr

/-- `ResourceClaimSpec.DeepCopyInto`. -/
def ResourceClaimSpec.DeepCopyInto (inp : ResourceClaimSpec) (h : Heap) :
    Heap × ResourceClaimSpec :=
  let out := inp
  let out := { out with WriteConnectionSecretToReference := inp.WriteConnectionSecretToReference }
  let (h1, p) := copyLocalObjectReference h inp.PortableClassReference
  let out := { out with PortableClassReference := p }
  let (h2, r) := copyObjectReference h1 inp.ResourceReference
  (h2, { out with ResourceReference := r })

/-- `ResourceClaimSpec.DeepCopy`. -/
def ResourceClaimSpec.DeepCopy (inp : Option ResourceClaimSpec) (h : Heap) :
    Heap × Option ResourceClaimSpec :=
  match inp with
  | none => (h, none)
  | some s => ((s.DeepCopyInto h).1, some (s.DeepCopyInto h).2)

/-- `ResourceClaimStatus` in memory: the two embedded statuses. -/
structure ResourceClaimStatus where
  ConditionedStatus : ConditionedStatus := {}
  BindingStatus : BindingStatus := {}
  deriving DecidableEq, Repr

/-- `ResourceClaimStatus.DeepCopyInto`. -/
def ResourceClaimStatus.DeepCopyInto (inp : ResourceClaimStatus) (h : Heap) :
    Heap × ResourceClaimStatus :=
  let out := inp
  let (h1, cs) := inp.ConditionedStatus.DeepCopyInto h
  let out := { out with ConditionedStatus := cs }
  (h1, { out with BindingStatus := inp.BindingStatus })

/-- `ResourceClaimStatus.DeepCopy`. -/
def ResourceClaimStatus.DeepCopy (inp : Option ResourceClaimStatus) (h : Heap) :
    Heap × Option ResourceClaimStatus :=
  match inp with
  | none => (h, none)
  | some s => ((s.DeepCopyInto h).1, some (s.DeepCopyInto h).2)

/-- `ResourceSpec` in memory: `WriteConnectionSecretToReference` is held by
value, the three references are nullable, the other fields are held by
value. -/
structure ResourceSpec where
  WriteConnectionSecretToReference : v1.LocalObjectReference := {}
  ClaimReference : Option Addr := none
  NonPortableClassReference : Option Addr := none
  ProviderReference : Option Addr := none
  Others : List (String × String) := []
  deriving DecidableEq, Repr

/-- `ResourceSpec.DeepCopyInto`. -/
def ResourceSpec.DeepCopyInto (inp : ResourceSpec) (h : Heap) : Heap × ResourceSpec :=
  let out := inp
  let out := { out with WriteConnectionSecretToReference := inp.WriteConnectionSecretToReference }
  let (h1, c) := copyObjectReference h inp.ClaimReference
  let out := { out with ClaimReference := c }
  let (h2, n) := copyObjectReference h1 inp.NonPortableClassReference
  let out := { out with NonPortableClassReference := n }
  let (h3, p) := copyObjectReference h2 inp.ProviderReference
  (h3, { out with ProviderReference := p })

/-- `ResourceSpec.DeepCopy`: `nil` for `nil`, otherwise a new `ResourceSpec`
that `DeepCopyInto` fills. -/
def ResourceSpec.DeepCopy (inp : Option ResourceSpec) (h : Heap) :
    Heap × Option ResourceSpec :=
  match inp with
  | none => (h, none)
  | some s => ((s.DeepCopyInto h).1, some (s.DeepCopyInto h).2)

/-- `ResourceStatus` in memory: the two embedded statuses. -/
structure ResourceStatus where
  ConditionedStatus : ConditionedStatus := {}
  BindingStatus : BindingStatus := {}
  deriving DecidableEq, Repr

/-- `ResourceStatus.DeepCopyInto`. -/
def ResourceStatus.DeepCopyInto (inp : ResourceStatus) (h : Heap) : Heap × ResourceStatus :=
  let out := inp
  let (h1, cs) := inp.ConditionedStatus.DeepCopyInto h
  let out := { out with ConditionedStatus := cs }
  (h1, { out with BindingStatus := inp.BindingStatus })

/-- `ResourceStatus.DeepCopy`. -/
def ResourceStatus.DeepCopy (inp : Option ResourceStatus) (h : Heap) :
    Heap × Option ResourceStatus :=
  match inp with
  | none => (h, none)
  | some s => ((s.DeepCopyInto h).1, some (s.DeepCopyInto h).2)

end deepcopy

namespace deepcopy

open v1alpha1

/-- The value a `ConditionedStatus` in memory stands for: the conditions its
slice holds, `nil` for a `nil` slice. -/
def ConditionedStatus.value (s : ConditionedStatus) (h : Heap) : v1alpha1.ConditionedStatus :=
  ⟨s.Conditions.map (fun a => h.conditions.getD a [])⟩

/-- The addresses a value reaches through its pointers and slices, by kind. -/
structure Footprint where
  objectReferences : List Addr := []
  localObjectReferences : List Addr := []
  conditions : List Addr := []
  deriving DecidableEq, Repr

/-- Every address of the footprint is in use in `h`: no pointer dangles. -/
def Footprint.valid (f : Footprint) (h : Heap) : Prop :=
  (∀ a ∈ f.objectReferences, a < h.objectReferences.length)
    ∧ (∀ a ∈ f.localObjectReferences, a < h.localObjectReferences.length)
    ∧ (∀ a ∈ f.conditions, a < h.conditions.length)

/-- What memory holds at the addresses of a footprint: every field reachable
through them. -/
def Footprint.contents (f : Footprint) (h : Heap) :
    List v1.ObjectReference × List v1.LocalObjectReference × List (List Condition) :=
  (f.objectReferences.map h.getObjectReference,
    f.localObjectReferences.map h.getLocalObjectReference,
    f.conditions.map (fun a => h.conditions.getD a []))

/-- A write through a pointer or into a slice: the record of a nullable
reference field, a sequence element, or the timestamp of a condition in a
sequence. -/
inductive Mutation where
  | setObjectReference (a : Addr) (r : v1.ObjectReference)
  | setLocalObjectReference (a : Addr) (r : v1.LocalObjectReference)
  | setCondition (a : Addr) (i : Nat) (c : Condition)
  | setLastTransitionTime (a : Addr) (i : Nat) (t : Time)
  deriving DecidableEq, Repr

/-- The memory after a write. -/
def Heap.mutate (h : Heap) : Mutation → Heap
  | .setObjectReference a r => h.setObjectReference a r
  | .setLocalObjectReference a r => h.setLocalObjectReference a r
  | .setCondition a i c => h.setCondition a i c
  | .setLastTransitionTime a i t =>
      h.setCondition a i { h.getCondition a i with LastTransitionTime := t }

/-- The write goes through an address of the footprint. -/
def Mutation.within : Mutation → Footprint → Prop
  | .setObjectReference a _, f => a ∈ f.objectReferences
  | .setLocalObjectReference a _, f => a ∈ f.localObjectReferences
  | .setCondition a _ _, f => a ∈ f.conditions
  | .setLastTransitionTime a _ _, f => a ∈ f.conditions

/-- The addresses reachable from a `ConditionedStatus`. -/
def ConditionedStatus.footprint (s : ConditionedStatus) : Footprint :=
  { conditions := s.Conditions.toList }

/-- The addresses reachable from a `NonPortableClassSpecTemplate`. -/
def NonPortableClassSpecTemplate.footprint (s : NonPortableClassSpecTemplate) : Footprint :=
  { objectReferences := s.ProviderReference.toList }

/-- The addresses reachable from a `PortableClass`. -/
def PortableClass.footprint (s : PortableClass) : Footprint :=
  { objectReferences := s.NonPortableClassReference.toList }

/-- The addresses reachable from a `ResourceClaimSpec`. -/
def ResourceClaimSpec.footprint (s : ResourceClaimSpec) : Footprint :=
  { objectReferences := s.ResourceReference.toList,
    localObjectReferences := s.PortableClassReference.toList }

/-- The addresses reachable from a `ResourceClaimStatus`. -/
def ResourceClaimStatus.footprint (s : ResourceClaimStatus) : Footprint :=
  s.ConditionedStatus.footprint

/-- The addresses reachable from a `ResourceSpec`. -/
def ResourceSpec.footprint (s : ResourceSpec) : Footprint :=
  { objectReferences :=
      s.ClaimReference.toList ++ s.NonPortableClassReference.toList
        ++ s.ProviderReference.toList }

/-- The addresses reachable from a `ResourceStatus`. -/
def ResourceStatus.footprint (s : ResourceStatus) : Footprint :=
  s.ConditionedStatus.footprint

end deepcopy

/-! ## The path engine -/

namespace fieldpath

theorem parse_writeConnectionSecretToRef :
    Parse "spec.writeConnectionSecretToRef"
      = .ok [.field "spec", .field "writeConnectionSecretToRef"] := by
  rfl

theorem parse_deletionPolicy :
    Parse "spec.deletionPolicy" = .ok [.field "spec", .field "deletionPolicy"] := by
  rfl

theorem parse_providerConfigRef :
    Parse "spec.providerConfigRef" = .ok [.field "spec", .field "providerConfigRef"] := by
  rfl

theorem parse_providerRef :
    Parse "spec.providerRef" = .ok [.field "spec", .field "providerRef"] := by
  rfl

theorem parse_status : Parse "status" = .ok [.field "status"] := by
  rfl

theorem parse_status_conditions :
    Parse "status.conditions" = .ok [.field "status", .field "conditions"] := by
  rfl

theorem lookupField_putField_same (k : String) (v : Value) (o : Object) :
    lookupField k (putField k v o) = some v := by
  induction o with
  | nil => simp [putField, lookupField]
  | cons kv rest ih =>
      obtain ⟨k', v'⟩ := kv
      by_cases h : k' = k
      · simp [putField, lookupField, h]
      · simp [putField, lookupField, h, ih]

theorem lookupField_putField_ne (k k' : String) (v : Value) (o : Object) (h : k' ≠ k) :
    lookupField k' (putField k v o) = lookupField k' o := by
  induction o with
  | nil =>
      have h2 : ¬ k = k' := fun e => h e.symm
      simp [putField, lookupField, h2]
  | cons kv rest ih =>
      obtain ⟨k1, v1⟩ := kv
      by_cases h1 : k1 = k
      · have h2 : ¬ k = k' := fun e => h e.symm
        subst h1
        simp [putField, lookupField, h2]
      · by_cases h3 : k1 = k'
        · subst h3
          simp [putField, lookupField, h]
        · simp [putField, lookupField, h1, h3, ih]

/-- A write through one field segment. -/
theorem setValue_one (o : Object) (a : String) (v : Value) :
    setValue (.object o) [.field a] v = .ok (.object (putField a v o)) := by
  simp [setValue]

/-- A write through two field segments, by what the mapping holds under the
first. -/
theorem setValue_two (o : Object) (a b : String) (v : Value) :
    setValue (.object o) [.field a, .field b] v =
      match lookupField a o with
      | none => .ok (.object (putField a (.object [(b, v)]) o))
      | some (.object fs) => .ok (.object (putField a (.object (putField b v fs)) o))
      | some _ => .error .InvalidPathError := by
  cases h : lookupField a o with
  | none => simp [setValue, h, emptyFor, putField]
  | some x => cases x <;> simp [setValue, h]

/-- A read through two field segments, by what the mapping holds under the
first. -/
theorem getValue_two (o : Object) (a b : String) :
    getValue (.object o) [.field a, .field b] =
      match lookupField a o with
      | some (.object fs) =>
          (match lookupField b fs with
           | some v => .ok v
           | none => .error .NotFoundError)
      | _ => .error .NotFoundError := by
  cases h : lookupField a o with
  | none => simp [getValue, h]
  | some x =>
      cases x with
      | object fs => cases h2 : lookupField b fs <;> simp [getValue, h, h2]
      | _ => simp [getValue, h]

/-- `SetValue` at a path of two field segments. -/
theorem Paved_SetValue_two (o : Object) (pa a b : String) (v : Value)
    (hp : Parse pa = .ok [.field a, .field b]) :
    (Pave o).SetValue pa v =
      match lookupField a o with
      | none => .ok ⟨putField a (.object [(b, v)]) o⟩
      | some (.object fs) => .ok ⟨putField a (.object (putField b v fs)) o⟩
      | some _ => .error .InvalidPathError := by
  unfold Paved.SetValue Pave
  rw [hp]
  simp only [setValue_two]
  cases h : lookupField a o with
  | none => simp
  | some x => cases x <;> simp

/-- `GetValue` at a path of two field segments. -/
theorem Paved_GetValue_two (o : Object) (pa a b : String)
    (hp : Parse pa = .ok [.field a, .field b]) :
    (Pave o).GetValue pa =
      match lookupField a o with
      | some (.object fs) =>
          (match lookupField b fs with
           | some v => .ok v
           | none => .error .NotFoundError)
      | _ => .error .NotFoundError := by
  unfold Paved.GetValue Pave
  rw [hp]
  exact getValue_two o a b

/-- Path round trip: a value written at a path of two fields is read back
there. -/
theorem GetValue_SetValue_same (o : Object) (pa a b : String) (v : Value) (p : Paved)
    (hp : Parse pa = .ok [.field a, .field b])
    (h : (Pave o).SetValue pa v = .ok p) : (Pave p.object).GetValue pa = .ok v := by
  rw [Paved_SetValue_two o pa a b v hp] at h
  rw [Paved_GetValue_two p.object pa a b hp]
  cases h1 : lookupField a o with
  | none =>
      rw [h1] at h
      simp only [Except.ok.injEq] at h
      subst h
      simp [lookupField_putField_same, lookupField]
  | some x =>
      rw [h1] at h
      cases x with
      | object fs =>
          simp only [Except.ok.injEq] at h
          subst h
          simp [lookupField_putField_same]
      | _ => simp at h

/-- Path independence: a write at one field of a mapping leaves the reads at
its other fields as they were. -/
theorem GetValue_SetValue_other (o : Object) (pa pb a b b' : String) (v : Value) (p : Paved)
    (hpa : Parse pa = .ok [.field a, .field b])
    (hpb : Parse pb = .ok [.field a, .field b']) (hne : b' ≠ b)
    (h : (Pave o).SetValue pa v = .ok p) :
    (Pave p.object).GetValue pb = (Pave o).GetValue pb := by
  rw [Paved_SetValue_two o pa a b v hpa] at h
  rw [Paved_GetValue_two p.object pb a b' hpb, Paved_GetValue_two o pb a b' hpb]
  have hne2 : ¬ b = b' := fun e => hne e.symm
  cases h1 : lookupField a o with
  | none =>
      rw [h1] at h
      simp only [Except.ok.injEq] at h
      subst h
      simp [lookupField_putField_same, lookupField, hne2]
  | some x =>
      rw [h1] at h
      cases x with
      | object fs =>
          simp only [Except.ok.injEq] at h
          subst h
          simp [lookupField_putField_same, lookupField_putField_ne _ _ _ _ hne]
      | _ => simp at h

end fieldpath

/-! ## Deletion policy and references -/

namespace managed

open fieldpath v1alpha1

/-- C1 (at the input `Delete`): on a fresh resource `SetDeletionPolicy` stores
the policy `Delete` at `spec.deletionPolicy`, and `GetDeletionPolicy`, which
reads `spec.writeConnectionSecretToRef` into a by-value string, hands back the
empty policy, not `Delete`. -/
theorem GetDeletionPolicy_after_SetDeletionPolicy_Delete :
    (Pave ((New []).SetDeletionPolicy "Delete").Object).GetValue "spec.deletionPolicy"
        = .ok (.string "Delete")
      ∧ ((New []).SetDeletionPolicy "Delete").GetDeletionPolicy = ""
      ∧ ((New []).SetDeletionPolicy "Delete").GetDeletionPolicy ≠ "Delete" := by
  refine ⟨rfl, rfl, ?_⟩
  have h : ((New []).SetDeletionPolicy "Delete").GetDeletionPolicy = "" := rfl
  rw [h]
  decide

/-- Structural decode inverts the encoding of a secret reference. -/
theorem decodeSecretReference_encode (r : SecretReference) :
    decodeSecretReference (encodeSecretReference (some r)) = .ok r := by
  simp [encodeSecretReference, decodeSecretReference, decodeStringField, lookupField,
    decodeString]

/-- C2: on a fresh resource `GetWriteConnectionSecretToReference` returns no
reference, and after `SetWriteConnectionSecretToReference(r)` with a non-nil
`r` it returns a reference equal to `r`. -/
theorem GetWriteConnectionSecretToReference_roundtrip :
    (New []).GetWriteConnectionSecretToReference = none
      ∧ ∀ r : SecretReference,
          ((New []).SetWriteConnectionSecretToReference (some r)).GetWriteConnectionSecretToReference
            = some r := by
  refine ⟨rfl, fun r => ?_⟩
  have hp := parse_writeConnectionSecretToRef
  unfold Unstructured.SetWriteConnectionSecretToReference
  cases h : (Pave (New []).Object).SetValue "spec.writeConnectionSecretToRef"
      (encodeSecretReference (some r)) with
  | error e =>
      rw [Paved_SetValue_two _ _ _ _ _ hp] at h
      simp [New, lookupField] at h
  | ok p =>
      have hg := GetValue_SetValue_same _ _ _ _ _ p hp h
      simp only [Unstructured.GetWriteConnectionSecretToReference, Paved.GetValueInto, hg,
        decodeSecretReference_encode]

/-- Reading one provider field after writing the other: the generic step. -/
theorem getter_frame (c : Unstructured) (pa pb b b' : String) (v : Value)
    (hpa : Parse pa = .ok [.field "spec", .field b])
    (hpb : Parse pb = .ok [.field "spec", .field b']) (hne : b' ≠ b) :
    (Pave (match (Pave c.Object).SetValue pa v with
           | .error _ => c
           | .ok p => (⟨p.object⟩ : Unstructured)).Object).GetValueInto pb decodeReference
      = (Pave c.Object).GetValueInto pb decodeReference := by
  cases h : (Pave c.Object).SetValue pa v with
  | error e => rfl
  | ok p =>
      have hg := GetValue_SetValue_other _ _ _ _ _ _ _ p hpa hpb hne h
      simp only [Paved.GetValueInto, hg]

/-- C3: the deprecated provider reference and the provider-config reference
are independent addresses.  On every document, setting one leaves the result
of getting the other as it was; on an empty document `SetProviderReference`
of `p1` followed by `GetProviderConfigReference` returns no reference. -/
theorem provider_references_independent :
    (∀ (d : Unstructured) (r : Option Reference),
        (d.SetProviderReference r).GetProviderConfigReference = d.GetProviderConfigReference
        ∧ (d.SetProviderConfigReference r).GetProviderReference = d.GetProviderReference)
      ∧ ((New []).SetProviderReference (some ⟨"p1"⟩)).GetProviderConfigReference = none := by
  refine ⟨fun d r => ⟨?_, ?_⟩, rfl⟩
  · unfold Unstructured.GetProviderConfigReference Unstructured.SetProviderReference
    rw [getter_frame d _ _ _ _ _ parse_providerRef parse_providerConfigRef (by decide)]
  · unfold Unstructured.GetProviderReference Unstructured.SetProviderConfigReference
    rw [getter_frame d _ _ _ _ _ parse_providerConfigRef parse_providerRef (by decide)]

end managed

/-! ## Conditions: encoding and merging -/

namespace v1alpha1

open fieldpath

theorem decodeStatus_encode (s : ConditionStatus) : decodeStatus (encodeStatus s) = .ok s := by
  cases s <;> simp [encodeStatus, decodeStatus]

/-- Structural decode inverts the encoding of a condition. -/
theorem decodeCondition_encode (c : Condition) :
    decodeCondition (encodeCondition c) = .ok c := by
  simp [encodeCondition, decodeCondition, decodeStringField, lookupField, decodeString,
    decodeStatus_encode, encodeTime, decodeTime]

theorem decodeConditionList_encode (cs : List Condition) :
    decodeConditionList (cs.map encodeCondition) = .ok cs := by
  induction cs with
  | nil => rfl
  | cons c rest ih => simp [decodeConditionList, decodeCondition_encode, ih]

/-- Structural decode inverts the encoding of a slice of conditions. -/
theorem decodeConditions_encode (cs : Option (List Condition)) :
    decodeConditions (encodeConditions cs) = .ok cs := by
  cases cs with
  | none => rfl
  | some l => simp [encodeConditions, decodeConditions, decodeConditionList_encode]

theorem mergeCondition_Type (e n : Condition) : (mergeCondition e n).Type_ = n.Type_ := by
  unfold mergeCondition
  split <;> rfl

theorem mergeCondition_Status (e n : Condition) : (mergeCondition e n).Status = n.Status := by
  unfold mergeCondition
  split <;> rfl

theorem mergeCondition_Reason (e n : Condition) : (mergeCondition e n).Reason = n.Reason := by
  unfold mergeCondition
  split <;> rfl

theorem mergeCondition_Message (e n : Condition) : (mergeCondition e n).Message = n.Message := by
  unfold mergeCondition
  split <;> rfl

/-- The types held after setting a condition: unchanged when its type was
there, one more at the end otherwise. -/
theorem setCondition_types (l : List Condition) (n : Condition) :
    (setCondition l n).map (fun c => c.Type_) =
      if n.Type_ ∈ l.map (fun c => c.Type_) then l.map (fun c => c.Type_)
      else l.map (fun c => c.Type_) ++ [n.Type_] := by
  induction l with
  | nil => simp [setCondition]
  | cons e rest ih =>
      by_cases h : e.Type_ = n.Type_
      · simp [setCondition, h, mergeCondition_Type]
      · have h2 : ¬ n.Type_ = e.Type_ := fun x => h x.symm
        simp only [setCondition, h, if_false, List.map_cons, ih, List.mem_cons, h2, false_or]
        split <;> simp

/-- Setting a condition keeps the types pairwise distinct. -/
theorem setCondition_nodup (l : List Condition) (n : Condition)
    (h : (l.map (fun c => c.Type_)).Nodup) :
    ((setCondition l n).map (fun c => c.Type_)).Nodup := by
  rw [setCondition_types]
  split
  · exact h
  · rename_i hn
    rw [List.nodup_append]
    refine ⟨h, List.nodup_singleton _, ?_⟩
    intro a ha hb
    simp at hb
    subst hb
    exact hn ha

/-- The condition found under a type after one of that type is set. -/
theorem find_setCondition (l : List Condition) (e n : Condition)
    (h : l.find? (fun c => decide (c.Type_ = n.Type_)) = some e) :
    (setCondition l n).find? (fun c => decide (c.Type_ = n.Type_))
      = some (mergeCondition e n) := by
  induction l with
  | nil => simp at h
  | cons x rest ih =>
      by_cases hx : x.Type_ = n.Type_
      · simp [List.find?, hx] at h
        subst h
        simp [setCondition, hx, List.find?, mergeCondition_Type]
      · simp [List.find?, hx] at h
        simp [setCondition, hx, List.find?, ih h]

/-- Setting a condition of a type that is not held appends it. -/
theorem setCondition_absent (l : List Condition) (n : Condition)
    (h : ∀ x ∈ l, x.Type_ ≠ n.Type_) : setCondition l n = l ++ [n] := by
  induction l with
  | nil => rfl
  | cons x rest ih =>
      have hx : x.Type_ ≠ n.Type_ := h x (List.mem_cons_self _ _)
      simp [setCondition, hx, ih (fun y hy => h y (List.mem_cons_of_mem _ hy))]

/-- Setting a condition of the type held last replaces it there. -/
theorem setCondition_last (l : List Condition) (e n : Condition)
    (h : ∀ x ∈ l, x.Type_ ≠ n.Type_) (he : e.Type_ = n.Type_) :
    setCondition (l ++ [e]) n = l ++ [mergeCondition e n] := by
  induction l with
  | nil => simp [setCondition, he]
  | cons x rest ih =>
      have hx : x.Type_ ≠ n.Type_ := h x (List.mem_cons_self _ _)
      simp [setCondition, hx, ih (fun y hy => h y (List.mem_cons_of_mem _ hy))]

/-- The conditions after `SetConditions`: the arguments that take effect,
set one by one. -/
theorem SetConditions_list (s : ConditionedStatus) (cs : List Condition) :
    (s.SetConditions cs).list = (winners cs).foldl setCondition s.list := by
  unfold ConditionedStatus.SetConditions
  generalize winners cs = ws
  induction ws generalizing s with
  | nil => rfl
  | cons n rest ih =>
      simp only [List.foldl_cons]
      rw [ih]
      rfl

/-- A call with one argument: that argument takes effect. -/
theorem winners_one (c : Condition) : winners [c] = [c] := rfl

/-- A call with two arguments of one type: the second takes effect. -/
theorem winners_two_same (c1 c2 : Condition) (h : c1.Type_ = c2.Type_) :
    winners [c1, c2] = [c2] := by
  simp [winners, supersede, h]

theorem foldl_setCondition_nodup (cs l : List Condition)
    (h : (l.map (fun c => c.Type_)).Nodup) :
    ((cs.foldl setCondition l).map (fun c => c.Type_)).Nodup := by
  induction cs generalizing l with
  | nil => exact h
  | cons n rest ih => exact ih _ (setCondition_nodup l n h)

end v1alpha1

/-! ## Conditions on the resource -/

namespace managed

open fieldpath v1alpha1

/-- The read of the status region, by what the document holds under
`status`. -/
theorem GetValueInto_status (o : Object) :
    (Pave o).GetValueInto "status" decodeConditionedStatus =
      match lookupField "status" o with
      | none => .error .NotFoundError
      | some v => decodeConditionedStatus v := by
  unfold Paved.GetValueInto Paved.GetValue Pave
  rw [parse_status]
  cases h : lookupField "status" o <;> simp [getValue, h]

/-- The document `SetConditions` leaves behind, by what it held under
`status`. -/
theorem SetConditions_Object (c : Unstructured) (cs : List Condition) :
    (c.SetConditions cs).Object =
      match lookupField "status" c.Object with
      | none =>
          putField "status"
            (.object [("conditions", encodeConditions (c.conditioned.SetConditions cs).Conditions)])
            c.Object
      | some (.object fs) =>
          putField "status"
            (.object (putField "conditions"
              (encodeConditions (c.conditioned.SetConditions cs).Conditions) fs))
            c.Object
      | some _ => c.Object := by
  unfold Unstructured.SetConditions
  simp only [Paved_SetValue_two _ _ _ _ _ parse_status_conditions]
  cases h : lookupField "status" c.Object with
  | none => simp
  | some x => cases x <;> simp

/-- On a resource whose status region is absent or a mapping, the status
read back after `SetConditions` is the status it computed. -/
theorem SetConditions_read (c : Unstructured) (cs : List Condition)
    (hw : ∀ v, lookupField "status" c.Object = some v → ∃ fs, v = .object fs) :
    (Pave (c.SetConditions cs).Object).GetValueInto "status" decodeConditionedStatus
      = .ok (c.conditioned.SetConditions cs) := by
  rw [GetValueInto_status, SetConditions_Object]
  cases h : lookupField "status" c.Object with
  | none =>
      simp [lookupField_putField_same, decodeConditionedStatus, lookupField,
        decodeConditions_encode]
  | some x =>
      obtain ⟨fs, hfs⟩ := hw x h
      subst hfs
      simp [lookupField_putField_same, decodeConditionedStatus, decodeConditions_encode]

theorem SetConditions_conditioned (c : Unstructured) (cs : List Condition)
    (hw : ∀ v, lookupField "status" c.Object = some v → ∃ fs, v = .object fs) :
    (c.SetConditions cs).conditioned = c.conditioned.SetConditions cs := by
  unfold Unstructured.conditioned
  rw [SetConditions_read c cs hw]
  rfl

/-- A resource that holds a condition has a mapping as status region. -/
theorem status_object_of_held (c : Unstructured) (h : c.conditioned.list ≠ []) :
    ∀ v, lookupField "status" c.Object = some v → ∃ fs, v = .object fs := by
  intro v hv
  cases v with
  | object fs => exact ⟨fs, rfl⟩
  | _ =>
      exfalso
      apply h
      unfold Unstructured.conditioned
      rw [GetValueInto_status, hv]
      rfl

end managed

namespace managed

open fieldpath v1alpha1

/-- C4 (anti-flap): on a resource holding a condition `held` of the type of
`c`, after `SetConditions(c)` the condition stored under that type, which is
also what `GetCondition` returns, has the type, status, reason and message of
`c`; its `LastTransitionTime` is that of `held` when `c.Status` is the held
status, and that of `c` when the status differs. -/
theorem SetConditions_anti_flap (r : Unstructured) (held c : Condition)
    (h : r.conditioned.list.find? (fun x => decide (x.Type_ = c.Type_)) = some held) :
    ∃ stored : Condition,
      (r.SetConditions [c]).conditioned.list.find? (fun x => decide (x.Type_ = c.Type_))
          = some stored
        ∧ (r.SetConditions [c]).GetCondition c.Type_ = stored
        ∧ stored.Type_ = c.Type_ ∧ stored.Status = c.Status
        ∧ stored.Reason = c.Reason ∧ stored.Message = c.Message
        ∧ (c.Status = held.Status → stored.LastTransitionTime = held.LastTransitionTime)
        ∧ (c.Status ≠ held.Status → stored.LastTransitionTime = c.LastTransitionTime) := by
  have hne : r.conditioned.list ≠ [] := by
    intro e
    rw [e] at h
    simp at h
  have hw := status_object_of_held r hne
  have hfind : ((r.conditioned.SetConditions [c]).list).find?
      (fun x => decide (x.Type_ = c.Type_)) = some (mergeCondition held c) := by
    rw [SetConditions_list]
    exact find_setCondition _ _ _ h
  refine ⟨mergeCondition held c, ?_, ?_, mergeCondition_Type _ _, mergeCondition_Status _ _,
    mergeCondition_Reason _ _, mergeCondition_Message _ _, ?_, ?_⟩
  · rw [SetConditions_conditioned r [c] hw]
    exact hfind
  · unfold Unstructured.GetCondition
    rw [SetConditions_read r [c] hw]
    simp only [ConditionedStatus.GetCondition, hfind]
  · intro hs
    simp [mergeCondition, hs]
  · intro hs
    have hs2 : ¬ held.Status = c.Status := fun e => hs e.symm
    simp [mergeCondition, hs2]

/-- C4 at a resource holding `Ready = True` since time 10: setting
`Ready = True` at time 20 with a new reason keeps time 10. -/
theorem SetConditions_anti_flap_witness :
    ∃ stored : Condition,
      (((New []).SetConditions [⟨"Ready", .ConditionTrue, ⟨10⟩, "Available", ""⟩]).SetConditions
          [⟨"Ready", .ConditionTrue, ⟨20⟩, "Again", "ok"⟩]).GetCondition "Ready" = stored
        ∧ stored.Reason = "Again" ∧ stored.Message = "ok"
        ∧ stored.LastTransitionTime = ⟨10⟩ := by
  obtain ⟨stored, _, h2, _, _, h5, h6, h7, _⟩ :=
    SetConditions_anti_flap ((New []).SetConditions [⟨"Ready", .ConditionTrue, ⟨10⟩, "Available", ""⟩])
      ⟨"Ready", .ConditionTrue, ⟨10⟩, "Available", ""⟩
      ⟨"Ready", .ConditionTrue, ⟨20⟩, "Again", "ok"⟩ (by rfl)
  exact ⟨stored, h2, h5, h6, h7 rfl⟩

end managed

namespace managed

open fieldpath v1alpha1

/-- One `SetConditions` call on a resource whose status region is absent or a
mapping and whose condition types are pairwise distinct: the region is a
mapping afterwards, the types are still distinct, and the list is what
`status.conditions` holds. -/
theorem SetConditions_step (c : Unstructured) (cs : List Condition)
    (hw : ∀ v, lookupField "status" c.Object = some v → ∃ fs, v = .object fs)
    (hn : (c.conditioned.list.map (fun x => x.Type_)).Nodup) :
    (∀ v, lookupField "status" (c.SetConditions cs).Object = some v → ∃ fs, v = .object fs)
      ∧ ((c.SetConditions cs).conditioned.list.map (fun x => x.Type_)).Nodup
      ∧ (Pave (c.SetConditions cs).Object).GetValue "status.conditions"
          = .ok (encodeConditions (c.SetConditions cs).conditioned.Conditions) := by
  refine ⟨?_, ?_, ?_⟩
  · intro v hv
    rw [SetConditions_Object] at hv
    cases h : lookupField "status" c.Object with
    | none =>
        rw [h] at hv
        simp only [lookupField_putField_same, Option.some.injEq] at hv
        exact ⟨_, hv.symm⟩
    | some x =>
        obtain ⟨fs, hfs⟩ := hw x h
        subst hfs
        rw [h] at hv
        simp only [lookupField_putField_same, Option.some.injEq] at hv
        exact ⟨_, hv.symm⟩
  · rw [SetConditions_conditioned c cs hw, SetConditions_list]
    exact foldl_setCondition_nodup _ _ hn
  · rw [SetConditions_conditioned c cs hw]
    have hp := parse_status_conditions
    cases h : (Pave c.Object).SetValue "status.conditions"
        (encodeConditions (c.conditioned.SetConditions cs).Conditions) with
    | error e =>
        exfalso
        rw [Paved_SetValue_two _ _ _ _ _ hp] at h
        cases h1 : lookupField "status" c.Object with
        | none => simp [h1] at h
        | some x =>
            obtain ⟨fs, hfs⟩ := hw x h1
            subst hfs
            simp [h1] at h
    | ok p =>
        have ho : (c.SetConditions cs).Object = p.object := by
          simp only [Unstructured.SetConditions, h]
        rw [ho]
        exact GetValue_SetValue_same _ _ _ _ _ p hp h

/-- Any further `SetConditions` calls keep what one call established. -/
theorem SetConditions_calls (calls : List (List Condition)) (c : Unstructured)
    (hw : ∀ v, lookupField "status" c.Object = some v → ∃ fs, v = .object fs)
    (hn : (c.conditioned.list.map (fun x => x.Type_)).Nodup)
    (hs : (Pave c.Object).GetValue "status.conditions"
          = .ok (encodeConditions c.conditioned.Conditions)) :
    ((calls.foldl (fun c cs => c.SetConditions cs) c).conditioned.list.map
        (fun x => x.Type_)).Nodup
      ∧ (Pave (calls.foldl (fun c cs => c.SetConditions cs) c).Object).GetValue
          "status.conditions"
          = .ok (encodeConditions
              (calls.foldl (fun c cs => c.SetConditions cs) c).conditioned.Conditions) := by
  induction calls generalizing c with
  | nil => exact ⟨hn, hs⟩
  | cons cs rest ih =>
      obtain ⟨h1, h2, h3⟩ := SetConditions_step c cs hw hn
      exact ih (c.SetConditions cs) h1 h2 h3

/-- C5 (condition dedup invariant): starting from a fresh resource, after any
sequence of `SetConditions` calls the conditions the resource holds have
pairwise distinct types; after at least one call that list is what the
document stores at `status.conditions`. -/
theorem SetConditions_dedup (calls : List (List Condition)) :
    ((calls.foldl (fun c cs => c.SetConditions cs) (New [])).conditioned.list.map
        (fun x => x.Type_)).Nodup
      ∧ (calls ≠ [] →
          (Pave (calls.foldl (fun c cs => c.SetConditions cs) (New [])).Object).GetValue
            "status.conditions"
            = .ok (encodeConditions
                (calls.foldl (fun c cs => c.SetConditions cs) (New [])).conditioned.Conditions)) := by
  have hw0 : ∀ v, lookupField "status" (New []).Object = some v → ∃ fs, v = .object fs := by
    intro v hv
    simp [New, lookupField] at hv
  have hn0 : ((New []).conditioned.list.map (fun x => x.Type_)).Nodup := by
    have : (New []).conditioned.list = [] := rfl
    rw [this]
    exact List.nodup_nil
  cases calls with
  | nil => exact ⟨hn0, fun h => absurd rfl h⟩
  | cons cs rest =>
      obtain ⟨h1, h2, h3⟩ := SetConditions_step (New []) cs hw0 hn0
      have h := SetConditions_calls rest ((New []).SetConditions cs) h1 h2 h3
      exact ⟨h.1, fun _ => h.2⟩

/-- C5 at one call that sets `Ready` twice: one condition is stored. -/
theorem SetConditions_dedup_witness :
    ([[⟨"Ready", .ConditionFalse, ⟨1⟩, "", ""⟩, ⟨"Ready", .ConditionTrue, ⟨2⟩, "", ""⟩]]
        : List (List Condition)) ≠ []
      ∧ ((([[⟨"Ready", .ConditionFalse, ⟨1⟩, "", ""⟩, ⟨"Ready", .ConditionTrue, ⟨2⟩, "", ""⟩]]
          : List (List Condition)).foldl
          (fun c cs => c.SetConditions cs) (New [])).conditioned.list.map
            (fun x => x.Type_)).Nodup
      ∧ (Pave (([[⟨"Ready", .ConditionFalse, ⟨1⟩, "", ""⟩, ⟨"Ready", .ConditionTrue, ⟨2⟩, "", ""⟩]]
          : List (List Condition)).foldl
          (fun c cs => c.SetConditions cs) (New [])).Object).GetValue "status.conditions"
          = .ok (encodeConditions
              (([[⟨"Ready", .ConditionFalse, ⟨1⟩, "", ""⟩, ⟨"Ready", .ConditionTrue, ⟨2⟩, "", ""⟩]]
                : List (List Condition)).foldl
                (fun c cs => c.SetConditions cs) (New [])).conditioned.Conditions) :=
  ⟨by simp, (SetConditions_dedup _).1, (SetConditions_dedup _).2 (by simp)⟩

end managed

namespace managed

open fieldpath v1alpha1

/-- C6 (multi-condition call ordering): for two conditions `c1` and `c2` of
one type set in one call on a resource that holds no condition of that type
(its status region absent or a mapping), the result holds exactly one
condition of that type and it equals `c2`, which is also what `GetCondition`
returns for the type: the later argument wins. -/
theorem SetConditions_later_wins (r : Unstructured) (c1 c2 : Condition)
    (ht : c1.Type_ = c2.Type_)
    (hw : ∀ v, lookupField "status" r.Object = some v → ∃ fs, v = .object fs)
    (hno : ∀ x ∈ r.conditioned.list, x.Type_ ≠ c2.Type_) :
    (r.SetConditions [c1, c2]).conditioned.list.filter (fun x => decide (x.Type_ = c2.Type_))
        = [c2]
      ∧ (r.SetConditions [c1, c2]).GetCondition c2.Type_ = c2 := by
  have hl : (r.conditioned.SetConditions [c1, c2]).list = r.conditioned.list ++ [c2] := by
    rw [SetConditions_list, winners_two_same c1 c2 ht]
    simp only [List.foldl_cons, List.foldl_nil]
    exact setCondition_absent _ _ hno
  have hf : r.conditioned.list.filter (fun x => decide (x.Type_ = c2.Type_)) = [] := by
    rw [List.filter_eq_nil_iff]
    intro x hx
    simpa using hno x hx
  have hn : r.conditioned.list.find? (fun x => decide (x.Type_ = c2.Type_)) = none := by
    rw [List.find?_eq_none]
    intro x hx
    simpa using hno x hx
  constructor
  · rw [SetConditions_conditioned r _ hw, hl, List.filter_append, hf]
    simp
  · unfold Unstructured.GetCondition
    rw [SetConditions_read r _ hw]
    simp only [ConditionedStatus.GetCondition, hl, List.find?_append, hn]
    simp

/-- C6 on a fresh resource: two `Ready = True` conditions of times 1 and 2 in
one call store the second, with its time 2. -/
theorem SetConditions_later_wins_witness :
    ((New []).SetConditions [⟨"Ready", .ConditionTrue, ⟨1⟩, "Creating", ""⟩,
        ⟨"Ready", .ConditionTrue, ⟨2⟩, "Available", "up"⟩]).conditioned.list.filter
          (fun x => decide (x.Type_ = "Ready"))
        = [⟨"Ready", .ConditionTrue, ⟨2⟩, "Available", "up"⟩]
      ∧ ((New []).SetConditions [⟨"Ready", .ConditionTrue, ⟨1⟩, "Creating", ""⟩,
        ⟨"Ready", .ConditionTrue, ⟨2⟩, "Available", "up"⟩]).GetCondition "Ready"
        = ⟨"Ready", .ConditionTrue, ⟨2⟩, "Available", "up"⟩ :=
  SetConditions_later_wins (New []) ⟨"Ready", .ConditionTrue, ⟨1⟩, "Creating", ""⟩
    ⟨"Ready", .ConditionTrue, ⟨2⟩, "Available", "up"⟩ rfl
    (by intro v hv; simp [New, lookupField] at hv)
    (by intro x hx; have h0 : (New []).conditioned.list = [] := rfl; rw [h0] at hx; simp at hx)

/-- C7: when the resource holds no condition of type `ct`, which includes a
document with no status region, `GetCondition(ct)` returns the sentinel: status
`Unknown`, empty reason and message. -/
theorem GetCondition_absent (c : Unstructured) (ct : String)
    (h : ∀ x ∈ c.conditioned.list, x.Type_ ≠ ct) :
    (c.GetCondition ct).Status = .ConditionUnknown
      ∧ (c.GetCondition ct).Reason = "" ∧ (c.GetCondition ct).Message = "" := by
  have hz : c.GetCondition ct = {} := by
    unfold Unstructured.GetCondition
    unfold Unstructured.conditioned at h
    cases hg : (Pave c.Object).GetValueInto "status" decodeConditionedStatus with
    | error e => rfl
    | ok s =>
        rw [hg] at h
        simp only at h
        have hf : s.list.find? (fun x => decide (x.Type_ = ct)) = none := by
          rw [List.find?_eq_none]
          intro x hx
          simpa using h x hx
        simp only [ConditionedStatus.GetCondition, hf]
  rw [hz]
  exact ⟨rfl, rfl, rfl⟩

/-- C7 on a document with no status region and on one that holds only a
`Synced` condition. -/
theorem GetCondition_absent_witness :
    ((New []).GetCondition "Ready").Status = .ConditionUnknown
      ∧ ((New []).GetCondition "Ready").Reason = ""
      ∧ (((New []).SetConditions [⟨"Synced", .ConditionTrue, ⟨5⟩, "Ok", "fine"⟩]).GetCondition
          "Ready").Message = "" :=
  ⟨(GetCondition_absent (New []) "Ready"
      (by intro x hx; have h0 : (New []).conditioned.list = [] := rfl; rw [h0] at hx; simp at hx)).1,
   (GetCondition_absent (New []) "Ready"
      (by intro x hx; have h0 : (New []).conditioned.list = [] := rfl; rw [h0] at hx; simp at hx)).2.1,
   (GetCondition_absent ((New []).SetConditions [⟨"Synced", .ConditionTrue, ⟨5⟩, "Ok", "fine"⟩])
      "Ready"
      (by
        intro x hx
        have h0 : ((New []).SetConditions
            [⟨"Synced", .ConditionTrue, ⟨5⟩, "Ok", "fine"⟩]).conditioned.list
            = [⟨"Synced", .ConditionTrue, ⟨5⟩, "Ok", "fine"⟩] := rfl
        rw [h0] at hx
        simp at hx
        subst hx
        decide)).2.2⟩

end managed

namespace managed

open fieldpath v1alpha1

/-- C8: `SetConditions` writes only the condition list.  Every top-level
field other than `status`, and every field of the status region other than
`conditions`, reads after the call as it read before. -/
theorem SetConditions_frame (c : Unstructured) (cs : List Condition) :
    (∀ k : String, k ≠ "status" →
        lookupField k (c.SetConditions cs).Object = lookupField k c.Object)
      ∧ (∀ k : String, k ≠ "conditions" →
          getValue (.object (c.SetConditions cs).Object) [.field "status", .field k]
            = getValue (.object c.Object) [.field "status", .field k]) := by
  constructor
  · intro k hk
    rw [SetConditions_Object]
    cases h : lookupField "status" c.Object with
    | none => exact lookupField_putField_ne _ _ _ _ hk
    | some x =>
        cases x with
        | object fs => exact lookupField_putField_ne _ _ _ _ hk
        | _ => rfl
  · intro k hk
    have hk2 : ¬ "conditions" = k := fun e => hk e.symm
    rw [getValue_two, getValue_two, SetConditions_Object]
    cases h : lookupField "status" c.Object with
    | none => simp [lookupField_putField_same, lookupField, hk2]
    | some x =>
        cases x with
        | object fs =>
            simp [lookupField_putField_same, lookupField_putField_ne _ _ _ _ hk]
        | _ => simp [h]

/-- C8 on a document with a `spec` and a status field `atProvider` next to
the conditions: both read as before after `SetConditions`. -/
theorem SetConditions_frame_witness :
    lookupField "spec"
        ((⟨[("spec", .object [("size", .number 3)]),
            ("status", .object [("atProvider", .string "up"), ("conditions", .array [])])]⟩
          : Unstructured).SetConditions [⟨"Ready", .ConditionTrue, ⟨7⟩, "", ""⟩]).Object
        = lookupField "spec"
            [("spec", .object [("size", .number 3)]),
             ("status", .object [("atProvider", .string "up"), ("conditions", .array [])])]
      ∧ getValue (.object
          ((⟨[("spec", .object [("size", .number 3)]),
              ("status", .object [("atProvider", .string "up"), ("conditions", .array [])])]⟩
            : Unstructured).SetConditions [⟨"Ready", .ConditionTrue, ⟨7⟩, "", ""⟩]).Object)
          [.field "status", .field "atProvider"]
        = getValue (.object
            [("spec", .object [("size", .number 3)]),
             ("status", .object [("atProvider", .string "up"), ("conditions", .array [])])])
            [.field "status", .field "atProvider"] :=
  ⟨(SetConditions_frame _ _).1 "spec" (by decide),
   (SetConditions_frame _ _).2 "atProvider" (by decide)⟩

/-- C9 as stated fails: with the scalar `x` stored at `spec.providerConfigRef`
the read fails with a `DecodeError`, with nothing stored there it fails with a
`NotFoundError`, and `GetProviderConfigReference` returns the same `nil` in
both cases. -/
theorem GetProviderConfigReference_decode_failure_counterexample :
    (Pave [("spec", .object [("providerConfigRef", .string "x")])]).GetValueInto
        "spec.providerConfigRef" decodeReference = .error .DecodeError
      ∧ (Pave [("spec", .object [])]).GetValueInto
        "spec.providerConfigRef" decodeReference = .error .NotFoundError
      ∧ (⟨[("spec", .object [("providerConfigRef", .string "x")])]⟩
          : Unstructured).GetProviderConfigReference
        = (⟨[("spec", .object [])]⟩ : Unstructured).GetProviderConfigReference := by
  refine ⟨by rfl, by rfl, by rfl⟩

/-- C9, amended: the reference getters absorb every failure of the read.
Whenever the read at the reference path fails, with a `DecodeError` as with a
`NotFoundError`, the getter returns `nil`. -/
theorem getters_absorb_read_failures (c : Unstructured) (e : Error) :
    ((Pave c.Object).GetValueInto "spec.writeConnectionSecretToRef" decodeSecretReference
        = .error e → c.GetWriteConnectionSecretToReference = none)
      ∧ ((Pave c.Object).GetValueInto "spec.providerConfigRef" decodeReference
        = .error e → c.GetProviderConfigReference = none)
      ∧ ((Pave c.Object).GetValueInto "spec.providerRef" decodeReference
        = .error e → c.GetProviderReference = none) := by
  refine ⟨fun h => ?_, fun h => ?_, fun h => ?_⟩
  · simp only [Unstructured.GetWriteConnectionSecretToReference, h]
  · simp only [Unstructured.GetProviderConfigReference, h]
  · simp only [Unstructured.GetProviderReference, h]

/-- C9, amended, on a document that stores the number 5 at each of the three
reference paths: every read is a `DecodeError` and every getter returns
`nil`. -/
theorem getters_absorb_read_failures_witness :
    (⟨[("spec", .object [("writeConnectionSecretToRef", .number 5),
        ("providerConfigRef", .number 5), ("providerRef", .number 5)])]⟩
        : Unstructured).GetWriteConnectionSecretToReference = none
      ∧ (⟨[("spec", .object [("writeConnectionSecretToRef", .number 5),
        ("providerConfigRef", .number 5), ("providerRef", .number 5)])]⟩
        : Unstructured).GetProviderConfigReference = none
      ∧ (⟨[("spec", .object [("writeConnectionSecretToRef", .number 5),
        ("providerConfigRef", .number 5), ("providerRef", .number 5)])]⟩
        : Unstructured).GetProviderReference = none :=
  ⟨(getters_absorb_read_failures _ .DecodeError).1 (by rfl),
   (getters_absorb_read_failures _ .DecodeError).2.1 (by rfl),
   (getters_absorb_read_failures _ .DecodeError).2.2 (by rfl)⟩

/-- C10 as stated fails: on a document whose `spec` is the scalar `x` the
write at `spec.deletionPolicy` fails with an `InvalidPathError`, and
`SetDeletionPolicy` hands the resource back as it was, with no failure. -/
theorem SetDeletionPolicy_write_failure_counterexample :
    (Pave [("spec", .string "x")]).SetValue "spec.deletionPolicy" (.string "Delete")
        = .error .InvalidPathError
      ∧ (⟨[("spec", .string "x")]⟩ : Unstructured).SetDeletionPolicy "Delete"
        = ⟨[("spec", .string "x")]⟩ := by
  refine ⟨by rfl, by rfl⟩

end managed

namespace managed

open fieldpath v1alpha1

/-- C10, amended: the setters absorb every failure of the write.  Whenever
the underlying `SetValue` fails, the setter completes without reporting it and
leaves the resource as it was. -/
theorem setters_absorb_write_failures (c : Unstructured) (e : Error)
    (ref : Option SecretReference) (p : DeletionPolicy) (r : Option Reference)
    (cs : List Condition) :
    ((Pave c.Object).SetValue "spec.writeConnectionSecretToRef" (encodeSecretReference ref)
        = .error e → c.SetWriteConnectionSecretToReference ref = c)
      ∧ ((Pave c.Object).SetValue "spec.deletionPolicy" (.string p)
        = .error e → c.SetDeletionPolicy p = c)
      ∧ ((Pave c.Object).SetValue "spec.providerConfigRef" (encodeReference r)
        = .error e → c.SetProviderConfigReference r = c)
      ∧ ((Pave c.Object).SetValue "spec.providerRef" (encodeReference r)
        = .error e → c.SetProviderReference r = c)
      ∧ ((Pave c.Object).SetValue "status.conditions"
          (encodeConditions (c.conditioned.SetConditions cs).Conditions)
        = .error e → c.SetConditions cs = c) := by
  refine ⟨fun h => ?_, fun h => ?_, fun h => ?_, fun h => ?_, fun h => ?_⟩
  · simp only [Unstructured.SetWriteConnectionSecretToReference, h]
  · simp only [Unstructured.SetDeletionPolicy, h]
  · simp only [Unstructured.SetProviderConfigReference, h]
  · simp only [Unstructured.SetProviderReference, h]
  · simp only [Unstructured.SetConditions, h]

/-- C10, amended, on a document whose `spec` and `status` are scalars: every
write is an `InvalidPathError` and every setter returns the resource as it
was. -/
theorem setters_absorb_write_failures_witness :
    (⟨[("spec", .string "x"), ("status", .string "y")]⟩
        : Unstructured).SetWriteConnectionSecretToReference (some ⟨"db-creds", ""⟩)
        = ⟨[("spec", .string "x"), ("status", .string "y")]⟩
      ∧ (⟨[("spec", .string "x"), ("status", .string "y")]⟩
        : Unstructured).SetDeletionPolicy "Orphan"
        = ⟨[("spec", .string "x"), ("status", .string "y")]⟩
      ∧ (⟨[("spec", .string "x"), ("status", .string "y")]⟩
        : Unstructured).SetProviderConfigReference (some ⟨"p1"⟩)
        = ⟨[("spec", .string "x"), ("status", .string "y")]⟩
      ∧ (⟨[("spec", .string "x"), ("status", .string "y")]⟩
        : Unstructured).SetProviderReference (some ⟨"p1"⟩)
        = ⟨[("spec", .string "x"), ("status", .string "y")]⟩
      ∧ (⟨[("spec", .string "x"), ("status", .string "y")]⟩
        : Unstructured).SetConditions [⟨"Ready", .ConditionTrue, ⟨1⟩, "", ""⟩]
        = ⟨[("spec", .string "x"), ("status", .string "y")]⟩ :=
  ⟨(setters_absorb_write_failures _ .InvalidPathError (some ⟨"db-creds", ""⟩) "Orphan"
      (some ⟨"p1"⟩) [⟨"Ready", .ConditionTrue, ⟨1⟩, "", ""⟩]).1 (by rfl),
   (setters_absorb_write_failures _ .InvalidPathError (some ⟨"db-creds", ""⟩) "Orphan"
      (some ⟨"p1"⟩) [⟨"Ready", .ConditionTrue, ⟨1⟩, "", ""⟩]).2.1 (by rfl),
   (setters_absorb_write_failures _ .InvalidPathError (some ⟨"db-creds", ""⟩) "Orphan"
      (some ⟨"p1"⟩) [⟨"Ready", .ConditionTrue, ⟨1⟩, "", ""⟩]).2.2.1 (by rfl),
   (setters_absorb_write_failures _ .InvalidPathError (some ⟨"db-creds", ""⟩) "Orphan"
      (some ⟨"p1"⟩) [⟨"Ready", .ConditionTrue, ⟨1⟩, "", ""⟩]).2.2.2.1 (by rfl),
   (setters_absorb_write_failures _ .InvalidPathError (some ⟨"db-creds", ""⟩) "Orphan"
      (some ⟨"p1"⟩) [⟨"Ready", .ConditionTrue, ⟨1⟩, "", ""⟩]).2.2.2.2 (by rfl)⟩

end managed

/-! ## Options and the condition round trip -/

namespace managed

open fieldpath v1alpha1

/-- C14: `New` starts from an empty document and applies its options in
argument order, and `WithConditions` sets the supplied conditions: the
resource `New(WithConditions(cs...))` is the resource `SetConditions(cs...)`
leaves of `New()`. -/
theorem New_WithConditions :
    (New []).Object = []
      ∧ (∀ (opts : List (Unstructured → Unstructured)) (f : Unstructured → Unstructured),
          New (opts ++ [f]) = f (New opts))
      ∧ (∀ cs : List Condition, New [WithConditions cs] = (New []).SetConditions cs) := by
  refine ⟨rfl, fun opts f => ?_, fun cs => rfl⟩
  simp [New, List.foldl_append]

/-- C15: `GetDeletionPolicy` returns the empty policy for every document; its
result does not depend on the document. -/
theorem GetDeletionPolicy_empty (c : Unstructured) : c.GetDeletionPolicy = "" := by
  unfold Unstructured.GetDeletionPolicy
  cases (Pave c.Object).GetValueInto "spec.writeConnectionSecretToRef" decodeString <;> rfl

/-- C17: on a fresh resource, `GetCondition(c.Type)` after `SetConditions(c)`
returns `c`: the same type, status, reason, message and
`LastTransitionTime`. -/
theorem GetCondition_after_SetConditions (c : Condition) :
    ((New []).SetConditions [c]).GetCondition c.Type_ = c := by
  have hw : ∀ v, lookupField "status" (New []).Object = some v → ∃ fs, v = .object fs := by
    intro v hv
    simp [New, lookupField] at hv
  unfold Unstructured.GetCondition
  rw [SetConditions_read (New []) [c] hw]
  have h0 : (New []).conditioned = {} := rfl
  simp [h0, ConditionedStatus.GetCondition, ConditionedStatus.SetConditions,
    ConditionedStatus.list, setCondition, winners_one]

end managed

/-! ## Deep copies: memory -/

namespace deepcopy

open v1alpha1

/-- Writing the last cell of a list that ends in one element. -/
theorem set_length_append_singleton {α : Type} (l : List α) (x y : α) :
    (l ++ [x]).set l.length y = l ++ [y] := by
  rw [List.set_append_right _ _ (Nat.le_refl _)]
  simp

/-- Reading a cell in use is not affected by cells added at the end. -/
theorem getD_append_of_lt {α : Type} (l s : List α) (a : Nat) (d : α) (h : a < l.length) :
    (l ++ s).getD a d = l.getD a d := by
  simp [List.getD_eq_getElem?_getD, List.getElem?_append_left h]

/-- Reading the cell added at the end. -/
theorem getD_append_length {α : Type} (l : List α) (x d : α) :
    (l ++ [x]).getD l.length d = x := by
  simp [List.getD_eq_getElem?_getD]

/-- Reading a cell other than the one written. -/
theorem getD_set_ne {α : Type} (l : List α) (a b : Nat) (x d : α) (h : a ≠ b) :
    (l.set a x).getD b d = l.getD b d := by
  simp [List.getD_eq_getElem?_getD, List.getElem?_set_ne h]

/-- The copy of a reference that is in use: one record is added, equal to the
record the reference leads to, and the copy leads to it. -/
theorem copyObjectReference_some (h : Heap) (a : Addr) (ha : a < h.objectReferences.length) :
    copyObjectReference h (some a) =
      ({ h with objectReferences := h.objectReferences ++ [h.getObjectReference a] },
        some h.objectReferences.length) := by
  simp [copyObjectReference, Heap.newObjectReference, Heap.setObjectReference,
    Heap.getObjectReference, set_length_append_singleton, List.getElem?_append_left ha]

/-- The copy of a local reference that is in use. -/
theorem copyLocalObjectReference_some (h : Heap) (a : Addr)
    (ha : a < h.localObjectReferences.length) :
    copyLocalObjectReference h (some a) =
      ({ h with localObjectReferences :=
            h.localObjectReferences ++ [h.getLocalObjectReference a] },
        some h.localObjectReferences.length) := by
  simp [copyLocalObjectReference, Heap.newLocalObjectReference, Heap.setLocalObjectReference,
    Heap.getLocalObjectReference, set_length_append_singleton, List.getElem?_append_left ha]

/-- The copy of a reference, in use or not, only adds to the records: what
was there stays, and a copy made leads to the first new address. -/
theorem copyObjectReference_grows (h : Heap) (x : Option Addr) :
    (∃ s, (copyObjectReference h x).1.objectReferences = h.objectReferences ++ s)
      ∧ (copyObjectReference h x).1.localObjectReferences = h.localObjectReferences
      ∧ (copyObjectReference h x).1.conditions = h.conditions
      ∧ (∀ b, (copyObjectReference h x).2 = some b → h.objectReferences.length ≤ b)
      ∧ ((copyObjectReference h x).2 = none ↔ x = none) := by
  cases x with
  | none => exact ⟨⟨[], by simp [copyObjectReference]⟩, rfl, rfl, by simp [copyObjectReference],
      by simp [copyObjectReference]⟩
  | some a =>
      refine ⟨⟨[(h.objectReferences ++ [({} : v1.ObjectReference)]).getD a {}], ?_⟩, rfl, rfl, ?_, ?_⟩
      · simp [copyObjectReference, Heap.newObjectReference, Heap.setObjectReference,
          Heap.getObjectReference, set_length_append_singleton]
      · intro b hb
        simp [copyObjectReference, Heap.newObjectReference] at hb
        exact Nat.le_of_eq hb
      · simp [copyObjectReference, Heap.newObjectReference]

/-- The copy of a local reference only adds to the records. -/
theorem copyLocalObjectReference_grows (h : Heap) (x : Option Addr) :
    (copyLocalObjectReference h x).1.objectReferences = h.objectReferences
      ∧ (∃ s, (copyLocalObjectReference h x).1.localObjectReferences
            = h.localObjectReferences ++ s)
      ∧ (copyLocalObjectReference h x).1.conditions = h.conditions
      ∧ (∀ b, (copyLocalObjectReference h x).2 = some b → h.localObjectReferences.length ≤ b)
      ∧ ((copyLocalObjectReference h x).2 = none ↔ x = none) := by
  cases x with
  | none => exact ⟨rfl, ⟨[], by simp [copyLocalObjectReference]⟩, rfl,
      by simp [copyLocalObjectReference], by simp [copyLocalObjectReference]⟩
  | some a =>
      refine ⟨rfl, ⟨[(h.localObjectReferences ++ [({} : v1.LocalObjectReference)]).getD a {}], ?_⟩, rfl, ?_, ?_⟩
      · simp [copyLocalObjectReference, Heap.newLocalObjectReference,
          Heap.setLocalObjectReference, Heap.getLocalObjectReference,
          set_length_append_singleton]
      · intro b hb
        simp [copyLocalObjectReference, Heap.newLocalObjectReference] at hb
        exact Nat.le_of_eq hb
      · simp [copyLocalObjectReference, Heap.newLocalObjectReference]

end deepcopy

/-! ## Deep copies: the condition slice -/

namespace deepcopy

open v1alpha1

/-- Filling cell `k` of an array whose first `k` cells are filled. -/
theorem set_take_map_replicate {α β : Type} (S : List α) (k : Nat) (hk : k < S.length)
    (f : α → β) (d : β) (d' : α) :
    ((S.take k).map f ++ List.replicate (S.length - k) d).set k (f (S.getD k d'))
      = (S.take (k + 1)).map f ++ List.replicate (S.length - (k + 1)) d := by
  have hlen : ((S.take k).map f).length = k := by
    simp [List.length_take]; omega
  have hrep : List.replicate (S.length - k) d = d :: List.replicate (S.length - (k + 1)) d := by
    have : S.length - k = (S.length - (k + 1)) + 1 := by omega
    rw [this, List.replicate_succ]
  have hget : S.getD k d' = S[k] := by
    rw [List.getD_eq_getElem?_getD, List.getElem?_eq_getElem hk]
    rfl
  have htake : S.take (k + 1) = S.take k ++ [S[k]] := by
    rw [List.take_succ, List.getElem?_eq_getElem hk]
    rfl
  rw [List.set_append_right _ _ (by rw [hlen]), hlen, hrep, hget, htake, Nat.sub_self,
    List.set_cons_zero, List.map_append, List.append_assoc]
  rfl

/-- The loop of `ConditionedStatus.DeepCopyInto` after `k` rounds: the first
`k` cells of the new array hold the copies of the first `k` conditions. -/
theorem copy_loop (refs : List v1.ObjectReference) (locals : List v1.LocalObjectReference)
    (l : List (List Condition)) (a : Nat) (ha : a < l.length) (k : Nat)
    (hk : k ≤ (l.getD a []).length) :
    (List.range k).foldl
        (fun hh i => hh.setCondition l.length i (hh.getCondition a i).DeepCopyInto)
        (⟨refs, locals, l ++ [List.replicate (l.getD a []).length ({} : Condition)]⟩ : Heap)
      = ⟨refs, locals,
          l ++ [((l.getD a []).take k).map Condition.DeepCopyInto
                  ++ List.replicate ((l.getD a []).length - k) ({} : Condition)]⟩ := by
  induction k with
  | zero => simp
  | succ k ih =>
      rw [List.range_succ, List.foldl_append, ih (Nat.le_of_succ_le hk)]
      simp only [List.foldl_cons, List.foldl_nil, Heap.setCondition, Heap.getCondition,
        getD_append_length, getD_append_of_lt _ _ _ _ ha, set_length_append_singleton]
      rw [set_take_map_replicate _ k hk]

/-- `ConditionedStatus.DeepCopyInto` on a slice that is in use: one array is
added, holding the copy of every condition of the slice, and the copy leads to
it. -/
theorem ConditionedStatus_DeepCopyInto_some (s : ConditionedStatus) (h : Heap) (a : Addr)
    (hs : s.Conditions = some a) (ha : a < h.conditions.length) :
    s.DeepCopyInto h =
      ({ h with conditions :=
            h.conditions ++ [(h.conditions.getD a []).map Condition.DeepCopyInto] },
        { s with Conditions := some h.conditions.length }) := by
  unfold ConditionedStatus.DeepCopyInto
  rw [hs]
  simp only [Heap.makeConditions, Heap.len]
  rw [copy_loop h.objectReferences h.localObjectReferences h.conditions a ha _ (Nat.le_refl _)]
  simp

end deepcopy

namespace deepcopy

open v1alpha1

/-- The copy of a condition is that condition. -/
theorem Condition_DeepCopyInto_eq (c : Condition) : c.DeepCopyInto = c := by
  cases c
  rfl

/-- C12: for a `ConditionedStatus` whose condition slice is non-nil (and in
use), `DeepCopy` yields a status with a non-nil slice of the same length whose
element `i` is the clone of element `i` of the original, with the same type,
status, reason, message and `LastTransitionTime`, for every index `i`. -/
theorem ConditionedStatus_DeepCopy_elements (s : ConditionedStatus) (h : Heap) (a : Addr)
    (hs : s.Conditions = some a) (ha : a < h.conditions.length) :
    ∃ (out : ConditionedStatus) (b : Addr),
      (ConditionedStatus.DeepCopy (some s) h).2 = some out
        ∧ out.Conditions = some b
        ∧ (ConditionedStatus.DeepCopy (some s) h).1.len b = h.len a
        ∧ ∀ i, i < h.len a →
            (ConditionedStatus.DeepCopy (some s) h).1.getCondition b i
                = (h.getCondition a i).DeepCopyInto
              ∧ ((ConditionedStatus.DeepCopy (some s) h).1.getCondition b i).Type_
                  = (h.getCondition a i).Type_
              ∧ ((ConditionedStatus.DeepCopy (some s) h).1.getCondition b i).Status
                  = (h.getCondition a i).Status
              ∧ ((ConditionedStatus.DeepCopy (some s) h).1.getCondition b i).Reason
                  = (h.getCondition a i).Reason
              ∧ ((ConditionedStatus.DeepCopy (some s) h).1.getCondition b i).Message
                  = (h.getCondition a i).Message
              ∧ ((ConditionedStatus.DeepCopy (some s) h).1.getCondition b i).LastTransitionTime
                  = (h.getCondition a i).LastTransitionTime := by
  have hd := ConditionedStatus_DeepCopyInto_some s h a hs ha
  refine ⟨{ s with Conditions := some h.conditions.length }, h.conditions.length, ?_, rfl, ?_, ?_⟩
  · simp only [ConditionedStatus.DeepCopy, hd]
  · simp only [ConditionedStatus.DeepCopy, hd, Heap.len, getD_append_length, List.length_map]
  · intro i hi
    have hget : (ConditionedStatus.DeepCopy (some s) h).1.getCondition h.conditions.length i
        = (h.getCondition a i).DeepCopyInto := by
      simp only [ConditionedStatus.DeepCopy, hd, Heap.getCondition, getD_append_length]
      simp only [Heap.len] at hi
      rw [List.getD_eq_getElem?_getD, List.getD_eq_getElem?_getD (h.conditions.getD a []),
        List.getElem?_map, List.getElem?_eq_getElem hi]
      rfl
    rw [hget, Condition_DeepCopyInto_eq]
    exact ⟨rfl, rfl, rfl, rfl, rfl, rfl⟩

/-- C12 on a memory with one slice of two conditions: the copy is a second
slice of length two with the same conditions. -/
theorem ConditionedStatus_DeepCopy_elements_witness :
    ∃ (out : ConditionedStatus) (b : Addr),
      (ConditionedStatus.DeepCopy (some ⟨some 0⟩)
          ⟨[], [], [[⟨"Ready", .ConditionTrue, ⟨10⟩, "Available", ""⟩,
                     ⟨"Synced", .ConditionFalse, ⟨11⟩, "Error", "boom"⟩]]⟩).2 = some out
        ∧ out.Conditions = some b
        ∧ (ConditionedStatus.DeepCopy (some ⟨some 0⟩)
          ⟨[], [], [[⟨"Ready", .ConditionTrue, ⟨10⟩, "Available", ""⟩,
                     ⟨"Synced", .ConditionFalse, ⟨11⟩, "Error", "boom"⟩]]⟩).1.len b = 2 := by
  obtain ⟨out, b, h1, h2, h3, _⟩ :=
    ConditionedStatus_DeepCopy_elements ⟨some 0⟩
      ⟨[], [], [[⟨"Ready", .ConditionTrue, ⟨10⟩, "Available", ""⟩,
                 ⟨"Synced", .ConditionFalse, ⟨11⟩, "Error", "boom"⟩]]⟩ 0 rfl (by decide)
  exact ⟨out, b, h1, h2, h3⟩

/-- C18: `ConditionedStatus.DeepCopyInto` keeps an absent list apart from an
empty one.  A status that stands for a `nil` list is copied to one that stands
for a `nil` list; one that stands for a non-nil list of length 0 is copied to
one that stands for a non-nil list of length 0. -/
theorem ConditionedStatus_DeepCopyInto_nil_empty (s : ConditionedStatus) (h : Heap) :
    (s.value h = ⟨none⟩ → (s.DeepCopyInto h).2.value (s.DeepCopyInto h).1 = ⟨none⟩)
      ∧ ((s.footprint).valid h → s.value h = ⟨some []⟩ →
          (s.DeepCopyInto h).2.value (s.DeepCopyInto h).1 = ⟨some []⟩) := by
  constructor
  · intro hn
    cases hc : s.Conditions with
    | none => simp [ConditionedStatus.DeepCopyInto, ConditionedStatus.value, hc]
    | some a => simp [ConditionedStatus.value, hc] at hn
  · intro hv he
    cases hc : s.Conditions with
    | none => simp [ConditionedStatus.value, hc] at he
    | some a =>
        have ha : a < h.conditions.length := by
          apply hv.2.2
          simp [ConditionedStatus.footprint, hc]
        simp only [ConditionedStatus.value, hc, Option.map_some',
          v1alpha1.ConditionedStatus.mk.injEq, Option.some.injEq] at he
        rw [ConditionedStatus_DeepCopyInto_some s h a hc ha]
        simp only [ConditionedStatus.value, getD_append_length, he, Option.map_some',
          List.map_nil]

/-- C18 on a `nil` slice and on a slice of length 0 at address 0. -/
theorem ConditionedStatus_DeepCopyInto_nil_empty_witness :
    ((⟨none⟩ : ConditionedStatus).DeepCopyInto ⟨[], [], [[]]⟩).2.value
        ((⟨none⟩ : ConditionedStatus).DeepCopyInto ⟨[], [], [[]]⟩).1 = ⟨none⟩
      ∧ ((⟨some 0⟩ : ConditionedStatus).DeepCopyInto ⟨[], [], [[]]⟩).2.value
        ((⟨some 0⟩ : ConditionedStatus).DeepCopyInto ⟨[], [], [[]]⟩).1 = ⟨some []⟩ :=
  ⟨(ConditionedStatus_DeepCopyInto_nil_empty ⟨none⟩ ⟨[], [], [[]]⟩).1 rfl,
   (ConditionedStatus_DeepCopyInto_nil_empty ⟨some 0⟩ ⟨[], [], [[]]⟩).2
      (by simp [Footprint.valid, ConditionedStatus.footprint]) rfl⟩

end deepcopy

/-! ## Deep copies: nullable references -/

namespace deepcopy

open v1alpha1

/-- A record in use is not affected by the copy of a reference. -/
theorem copyObjectReference_get (h : Heap) (x : Option Addr) (c : Addr)
    (hc : c < h.objectReferences.length) :
    (copyObjectReference h x).1.getObjectReference c = h.getObjectReference c := by
  obtain ⟨⟨s, hs⟩, _, _, _, _⟩ := copyObjectReference_grows h x
  unfold Heap.getObjectReference
  rw [hs, getD_append_of_lt _ _ _ _ hc]

/-- The copy of a reference takes no record out of use. -/
theorem copyObjectReference_length (h : Heap) (x : Option Addr) :
    h.objectReferences.length ≤ (copyObjectReference h x).1.objectReferences.length := by
  obtain ⟨⟨s, hs⟩, _, _, _, _⟩ := copyObjectReference_grows h x
  rw [hs, List.length_append]
  exact Nat.le_add_right _ _

/-- The copy of a reference leads to a record in use. -/
theorem copyObjectReference_valid (h : Heap) (x : Option Addr) (b : Addr)
    (hb : (copyObjectReference h x).2 = some b) :
    b < (copyObjectReference h x).1.objectReferences.length := by
  cases x with
  | none => simp [copyObjectReference] at hb
  | some a =>
      simp [copyObjectReference, Heap.newObjectReference] at hb
      subst hb
      simp [copyObjectReference, Heap.newObjectReference, Heap.setObjectReference]

/-- The copy of a reference is absent when the reference is, and otherwise
leads to a record equal to the one the reference leads to. -/
theorem copyObjectReference_contents (h : Heap) (x : Option Addr)
    (hv : ∀ a, x = some a → a < h.objectReferences.length) :
    (copyObjectReference h x).2.map (copyObjectReference h x).1.getObjectReference
      = x.map h.getObjectReference := by
  cases x with
  | none => rfl
  | some a =>
      rw [copyObjectReference_some h a (hv a rfl)]
      simp [Heap.getObjectReference, getD_append_length]

/-- C11: for a `ResourceSpec` whose references are in use, `DeepCopy` yields
a spec in which each of `ClaimReference`, `NonPortableClassReference` and
`ProviderReference` is absent exactly when it is absent in the original and
otherwise leads to a record equal to the original's; every other field is
equal to the original's; and `DeepCopy` of `nil` is `nil`. -/
theorem ResourceSpec_DeepCopy_fields (s : ResourceSpec) (h : Heap)
    (hv : s.footprint.valid h) :
    (∃ out : ResourceSpec,
      (ResourceSpec.DeepCopy (some s) h).2 = some out
        ∧ (out.ClaimReference = none ↔ s.ClaimReference = none)
        ∧ out.ClaimReference.map (ResourceSpec.DeepCopy (some s) h).1.getObjectReference
            = s.ClaimReference.map h.getObjectReference
        ∧ (out.NonPortableClassReference = none ↔ s.NonPortableClassReference = none)
        ∧ out.NonPortableClassReference.map
              (ResourceSpec.DeepCopy (some s) h).1.getObjectReference
            = s.NonPortableClassReference.map h.getObjectReference
        ∧ (out.ProviderReference = none ↔ s.ProviderReference = none)
        ∧ out.ProviderReference.map (ResourceSpec.DeepCopy (some s) h).1.getObjectReference
            = s.ProviderReference.map h.getObjectReference
        ∧ out.WriteConnectionSecretToReference = s.WriteConnectionSecretToReference
        ∧ out.Others = s.Others)
      ∧ ResourceSpec.DeepCopy none h = (h, none) := by
  refine ⟨⟨(s.DeepCopyInto h).2, rfl, ?_⟩, rfl⟩
  have hvc : ∀ a, s.ClaimReference = some a → a < h.objectReferences.length := by
    intro a ha
    apply hv.1
    simp [ResourceSpec.footprint, ha]
  have hvn : ∀ a, s.NonPortableClassReference = some a → a < h.objectReferences.length := by
    intro a ha
    apply hv.1
    simp [ResourceSpec.footprint, ha]
  have hvp : ∀ a, s.ProviderReference = some a → a < h.objectReferences.length := by
    intro a ha
    apply hv.1
    simp [ResourceSpec.footprint, ha]
  -- the three memories the copy goes through
  have hl1 := copyObjectReference_length h s.ClaimReference
  have hl2 := copyObjectReference_length (copyObjectReference h s.ClaimReference).1
    s.NonPortableClassReference
  have hvn1 : ∀ a, s.NonPortableClassReference = some a →
      a < (copyObjectReference h s.ClaimReference).1.objectReferences.length :=
    fun a ha => Nat.lt_of_lt_of_le (hvn a ha) hl1
  have hvp2 : ∀ a, s.ProviderReference = some a →
      a < (copyObjectReference (copyObjectReference h s.ClaimReference).1
            s.NonPortableClassReference).1.objectReferences.length :=
    fun a ha => Nat.lt_of_lt_of_le (hvp a ha) (Nat.le_trans hl1 hl2)
  simp only [ResourceSpec.DeepCopy, ResourceSpec.DeepCopyInto]
  refine ⟨(copyObjectReference_grows _ _).2.2.2.2, ?_, (copyObjectReference_grows _ _).2.2.2.2,
    ?_, (copyObjectReference_grows _ _).2.2.2.2, ?_, trivial, trivial⟩
  · rw [← copyObjectReference_contents h s.ClaimReference hvc]
    cases hc : (copyObjectReference h s.ClaimReference).2 with
    | none => rfl
    | some b =>
        have hb := copyObjectReference_valid _ _ b hc
        simp only [Option.map_some', Option.some.injEq]
        rw [copyObjectReference_get _ _ b (Nat.lt_of_lt_of_le hb hl2),
          copyObjectReference_get _ _ b hb]
  · have hc0 := copyObjectReference_contents (copyObjectReference h s.ClaimReference).1
      s.NonPortableClassReference hvn1
    have hsame : s.NonPortableClassReference.map
          (copyObjectReference h s.ClaimReference).1.getObjectReference
        = s.NonPortableClassReference.map h.getObjectReference := by
      cases hn : s.NonPortableClassReference with
      | none => rfl
      | some a =>
          simp only [Option.map_some', Option.some.injEq]
          exact copyObjectReference_get _ _ a (hvn a hn)
    rw [← hsame, ← hc0]
    cases hc : (copyObjectReference (copyObjectReference h s.ClaimReference).1
        s.NonPortableClassReference).2 with
    | none => rfl
    | some b =>
        have hb := copyObjectReference_valid _ _ b hc
        simp only [Option.map_some', Option.some.injEq]
        rw [copyObjectReference_get _ _ b hb]
  · have hc0 := copyObjectReference_contents
      (copyObjectReference (copyObjectReference h s.ClaimReference).1
        s.NonPortableClassReference).1 s.ProviderReference hvp2
    have hsame : s.ProviderReference.map
          (copyObjectReference (copyObjectReference h s.ClaimReference).1
            s.NonPortableClassReference).1.getObjectReference
        = s.ProviderReference.map h.getObjectReference := by
      cases hn : s.ProviderReference with
      | none => rfl
      | some a =>
          simp only [Option.map_some', Option.some.injEq]
          rw [copyObjectReference_get _ _ a (Nat.lt_of_lt_of_le (hvp a hn) hl1),
            copyObjectReference_get _ _ a (hvp a hn)]
    rw [← hsame, ← hc0]

end deepcopy

/-! ## Deep copies: isolation -/

namespace deepcopy

open v1alpha1

/-- What memory holds at addresses in use is not affected by cells added at
the end. -/
theorem contents_of_grown (f : Footprint) (h h' : Heap) (hv : f.valid h)
    (h1 : ∃ s, h'.objectReferences = h.objectReferences ++ s)
    (h2 : ∃ s, h'.localObjectReferences = h.localObjectReferences ++ s)
    (h3 : ∃ s, h'.conditions = h.conditions ++ s) :
    f.contents h' = f.contents h := by
  obtain ⟨s1, e1⟩ := h1
  obtain ⟨s2, e2⟩ := h2
  obtain ⟨s3, e3⟩ := h3
  unfold Footprint.contents
  refine Prod.ext ?_ (Prod.ext ?_ ?_)
  · apply List.map_congr_left
    intro a ha
    simp only [Heap.getObjectReference, e1]
    exact getD_append_of_lt _ _ _ _ (hv.1 a ha)
  · apply List.map_congr_left
    intro a ha
    simp only [Heap.getLocalObjectReference, e2]
    exact getD_append_of_lt _ _ _ _ (hv.2.1 a ha)
  · apply List.map_congr_left
    intro a ha
    simp only [e3]
    exact getD_append_of_lt _ _ _ _ (hv.2.2 a ha)

/-- A write through an address outside a footprint leaves what memory holds
at the footprint as it was. -/
theorem contents_mutate (f g : Footprint) (h : Heap) (m : Mutation) (hm : m.within g)
    (d1 : ∀ a ∈ f.objectReferences, ∀ b ∈ g.objectReferences, a ≠ b)
    (d2 : ∀ a ∈ f.localObjectReferences, ∀ b ∈ g.localObjectReferences, a ≠ b)
    (d3 : ∀ a ∈ f.conditions, ∀ b ∈ g.conditions, a ≠ b) :
    f.contents (h.mutate m) = f.contents h := by
  unfold Footprint.contents
  cases m with
  | setObjectReference b r =>
      refine Prod.ext ?_ (Prod.ext rfl rfl)
      apply List.map_congr_left
      intro a ha
      exact getD_set_ne _ _ _ _ _ (fun e => d1 a ha b hm e.symm)
  | setLocalObjectReference b r =>
      refine Prod.ext rfl (Prod.ext ?_ rfl)
      apply List.map_congr_left
      intro a ha
      exact getD_set_ne _ _ _ _ _ (fun e => d2 a ha b hm e.symm)
  | setCondition b i c =>
      refine Prod.ext rfl (Prod.ext rfl ?_)
      apply List.map_congr_left
      intro a ha
      exact getD_set_ne _ _ _ _ _ (fun e => d3 a ha b hm e.symm)
  | setLastTransitionTime b i t =>
      refine Prod.ext rfl (Prod.ext rfl ?_)
      apply List.map_congr_left
      intro a ha
      exact getD_set_ne _ _ _ _ _ (fun e => d3 a ha b hm e.symm)

/-- Isolation, in general: when `h'` is `h` with cells added, `fA` lies in the
cells of `h` and `fB` in the added ones, a write through `fB` leaves what `fA`
reaches as it was in `h`, and a write through `fA` leaves what `fB` reaches as
it was in `h'`. -/
theorem isolation_core (h h' : Heap) (fA fB : Footprint) (hA : fA.valid h)
    (hB1 : ∀ b ∈ fB.objectReferences, h.objectReferences.length ≤ b)
    (hB2 : ∀ b ∈ fB.localObjectReferences, h.localObjectReferences.length ≤ b)
    (hB3 : ∀ b ∈ fB.conditions, h.conditions.length ≤ b)
    (h1 : ∃ s, h'.objectReferences = h.objectReferences ++ s)
    (h2 : ∃ s, h'.localObjectReferences = h.localObjectReferences ++ s)
    (h3 : ∃ s, h'.conditions = h.conditions ++ s) :
    (∀ m : Mutation, m.within fB → fA.contents (h'.mutate m) = fA.contents h)
      ∧ (∀ m : Mutation, m.within fA → fB.contents (h'.mutate m) = fB.contents h') := by
  have d1 : ∀ a ∈ fA.objectReferences, ∀ b ∈ fB.objectReferences, a ≠ b :=
    fun a ha b hb e => Nat.lt_irrefl a (Nat.lt_of_lt_of_le (hA.1 a ha) (e ▸ hB1 b hb))
  have d2 : ∀ a ∈ fA.localObjectReferences, ∀ b ∈ fB.localObjectReferences, a ≠ b :=
    fun a ha b hb e => Nat.lt_irrefl a (Nat.lt_of_lt_of_le (hA.2.1 a ha) (e ▸ hB2 b hb))
  have d3 : ∀ a ∈ fA.conditions, ∀ b ∈ fB.conditions, a ≠ b :=
    fun a ha b hb e => Nat.lt_irrefl a (Nat.lt_of_lt_of_le (hA.2.2 a ha) (e ▸ hB3 b hb))
  constructor
  · intro m hm
    rw [contents_mutate fA fB h' m hm d1 d2 d3]
    exact contents_of_grown fA h h' hA h1 h2 h3
  · intro m hm
    exact contents_mutate fB fA h' m hm (fun a ha b hb e => d1 b hb a ha e.symm)
      (fun a ha b hb e => d2 b hb a ha e.symm) (fun a ha b hb e => d3 b hb a ha e.symm)

end deepcopy

namespace deepcopy

open v1alpha1

/-- Clone isolation for `NonPortableClassSpecTemplate`. -/
theorem NonPortableClassSpecTemplate_isolation (A : NonPortableClassSpecTemplate) (h : Heap)
    (hv : A.footprint.valid h) :
    (∀ m : Mutation, m.within (A.DeepCopyInto h).2.footprint →
        A.footprint.contents ((A.DeepCopyInto h).1.mutate m) = A.footprint.contents h)
      ∧ (∀ m : Mutation, m.within A.footprint →
          (A.DeepCopyInto h).2.footprint.contents ((A.DeepCopyInto h).1.mutate m)
            = (A.DeepCopyInto h).2.footprint.contents (A.DeepCopyInto h).1) := by
  obtain ⟨g1, g2, g3, g4, _⟩ := copyObjectReference_grows h A.ProviderReference
  apply isolation_core h _ _ _ hv
  · intro b hb
    simp only [NonPortableClassSpecTemplate.DeepCopyInto,
      NonPortableClassSpecTemplate.footprint, Option.mem_toList, Option.mem_def] at hb
    exact g4 b hb
  · intro b hb
    simp [NonPortableClassSpecTemplate.DeepCopyInto,
      NonPortableClassSpecTemplate.footprint] at hb
  · intro b hb
    simp [NonPortableClassSpecTemplate.DeepCopyInto,
      NonPortableClassSpecTemplate.footprint] at hb
  · exact g1
  · exact ⟨[], by simp [NonPortableClassSpecTemplate.DeepCopyInto, g2]⟩
  · exact ⟨[], by simp [NonPortableClassSpecTemplate.DeepCopyInto, g3]⟩

/-- Clone isolation for `PortableClass`. -/
theorem PortableClass_isolation (A : PortableClass) (h : Heap) (hv : A.footprint.valid h) :
    (∀ m : Mutation, m.within (A.DeepCopyInto h).2.footprint →
        A.footprint.contents ((A.DeepCopyInto h).1.mutate m) = A.footprint.contents h)
      ∧ (∀ m : Mutation, m.within A.footprint →
          (A.DeepCopyInto h).2.footprint.contents ((A.DeepCopyInto h).1.mutate m)
            = (A.DeepCopyInto h).2.footprint.contents (A.DeepCopyInto h).1) := by
  obtain ⟨g1, g2, g3, g4, _⟩ := copyObjectReference_grows h A.NonPortableClassReference
  apply isolation_core h _ _ _ hv
  · intro b hb
    simp only [PortableClass.DeepCopyInto, PortableClass.footprint, Option.mem_toList,
      Option.mem_def] at hb
    exact g4 b hb
  · intro b hb
    simp [PortableClass.DeepCopyInto, PortableClass.footprint] at hb
  · intro b hb
    simp [PortableClass.DeepCopyInto, PortableClass.footprint] at hb
  · exact g1
  · exact ⟨[], by simp [PortableClass.DeepCopyInto, g2]⟩
  · exact ⟨[], by simp [PortableClass.DeepCopyInto, g3]⟩

/-- Clone isolation for `ConditionedStatus`. -/
theorem ConditionedStatus_isolation (A : ConditionedStatus) (h : Heap)
    (hv : A.footprint.valid h) :
    (∀ m : Mutation, m.within (A.DeepCopyInto h).2.footprint →
        A.footprint.contents ((A.DeepCopyInto h).1.mutate m) = A.footprint.contents h)
      ∧ (∀ m : Mutation, m.within A.footprint →
          (A.DeepCopyInto h).2.footprint.contents ((A.DeepCopyInto h).1.mutate m)
            = (A.DeepCopyInto h).2.footprint.contents (A.DeepCopyInto h).1) := by
  cases hc : A.Conditions with
  | none =>
      have hd : A.DeepCopyInto h = (h, A) := by
        simp [ConditionedStatus.DeepCopyInto, hc]
      rw [hd]
      apply isolation_core h _ _ _ hv
      · intro b hb
        simp [ConditionedStatus.footprint, hc] at hb
      · intro b hb
        simp [ConditionedStatus.footprint, hc] at hb
      · intro b hb
        simp [ConditionedStatus.footprint, hc] at hb
      · exact ⟨[], by simp⟩
      · exact ⟨[], by simp⟩
      · exact ⟨[], by simp⟩
  | some a =>
      have ha : a < h.conditions.length := by
        apply hv.2.2
        simp [ConditionedStatus.footprint, hc]
      rw [ConditionedStatus_DeepCopyInto_some A h a hc ha]
      apply isolation_core h _ _ _ hv
      · intro b hb
        simp [ConditionedStatus.footprint] at hb
      · intro b hb
        simp [ConditionedStatus.footprint] at hb
      · intro b hb
        simp only [ConditionedStatus.footprint, Option.toList_some, List.mem_singleton] at hb
        exact Nat.le_of_eq hb.symm
      · exact ⟨[], by simp⟩
      · exact ⟨[], by simp⟩
      · exact ⟨_, rfl⟩

/-- Clone isolation for `ResourceStatus`. -/
theorem ResourceStatus_isolation (A : ResourceStatus) (h : Heap) (hv : A.footprint.valid h) :
    (∀ m : Mutation, m.within (A.DeepCopyInto h).2.footprint →
        A.footprint.contents ((A.DeepCopyInto h).1.mutate m) = A.footprint.contents h)
      ∧ (∀ m : Mutation, m.within A.footprint →
          (A.DeepCopyInto h).2.footprint.contents ((A.DeepCopyInto h).1.mutate m)
            = (A.DeepCopyInto h).2.footprint.contents (A.DeepCopyInto h).1) :=
  ConditionedStatus_isolation A.ConditionedStatus h hv

/-- Clone isolation for `ResourceClaimStatus`. -/
theorem ResourceClaimStatus_isolation (A : ResourceClaimStatus) (h : Heap)
    (hv : A.footprint.valid h) :
    (∀ m : Mutation, m.within (A.DeepCopyInto h).2.footprint →
        A.footprint.contents ((A.DeepCopyInto h).1.mutate m) = A.footprint.contents h)
      ∧ (∀ m : Mutation, m.within A.footprint →
          (A.DeepCopyInto h).2.footprint.contents ((A.DeepCopyInto h).1.mutate m)
            = (A.DeepCopyInto h).2.footprint.contents (A.DeepCopyInto h).1) :=
  ConditionedStatus_isolation A.ConditionedStatus h hv

end deepcopy

namespace deepcopy

open v1alpha1

/-- Clone isolation for `ResourceSpec`. -/
theorem ResourceSpec_isolation (A : ResourceSpec) (h : Heap) (hv : A.footprint.valid h) :
    (∀ m : Mutation, m.within (A.DeepCopyInto h).2.footprint →
        A.footprint.contents ((A.DeepCopyInto h).1.mutate m) = A.footprint.contents h)
      ∧ (∀ m : Mutation, m.within A.footprint →
          (A.DeepCopyInto h).2.footprint.contents ((A.DeepCopyInto h).1.mutate m)
            = (A.DeepCopyInto h).2.footprint.contents (A.DeepCopyInto h).1) := by
  obtain ⟨⟨s1, e1⟩, l1, c1, f1, _⟩ := copyObjectReference_grows h A.ClaimReference
  obtain ⟨⟨s2, e2⟩, l2, c2, f2, _⟩ :=
    copyObjectReference_grows (copyObjectReference h A.ClaimReference).1
      A.NonPortableClassReference
  obtain ⟨⟨s3, e3⟩, l3, c3, f3, _⟩ :=
    copyObjectReference_grows
      (copyObjectReference (copyObjectReference h A.ClaimReference).1
        A.NonPortableClassReference).1 A.ProviderReference
  have hl1 := copyObjectReference_length h A.ClaimReference
  have hl2 := copyObjectReference_length (copyObjectReference h A.ClaimReference).1
    A.NonPortableClassReference
  apply isolation_core h _ _ _ hv
  · intro b hb
    simp only [ResourceSpec.DeepCopyInto, ResourceSpec.footprint, List.mem_append,
      Option.mem_toList, Option.mem_def] at hb
    rcases hb with (hb | hb) | hb
    · exact f1 b hb
    · exact Nat.le_trans hl1 (f2 b hb)
    · exact Nat.le_trans (Nat.le_trans hl1 hl2) (f3 b hb)
  · intro b hb
    simp [ResourceSpec.DeepCopyInto, ResourceSpec.footprint] at hb
  · intro b hb
    simp [ResourceSpec.DeepCopyInto, ResourceSpec.footprint] at hb
  · refine ⟨s1 ++ s2 ++ s3, ?_⟩
    simp only [ResourceSpec.DeepCopyInto]
    rw [e3, e2, e1]
    simp [List.append_assoc]
  · refine ⟨[], ?_⟩
    simp only [ResourceSpec.DeepCopyInto]
    rw [l3, l2, l1]
    simp
  · refine ⟨[], ?_⟩
    simp only [ResourceSpec.DeepCopyInto]
    rw [c3, c2, c1]
    simp

/-- Clone isolation for `ResourceClaimSpec`. -/
theorem ResourceClaimSpec_isolation (A : ResourceClaimSpec) (h : Heap)
    (hv : A.footprint.valid h) :
    (∀ m : Mutation, m.within (A.DeepCopyInto h).2.footprint →
        A.footprint.contents ((A.DeepCopyInto h).1.mutate m) = A.footprint.contents h)
      ∧ (∀ m : Mutation, m.within A.footprint →
          (A.DeepCopyInto h).2.footprint.contents ((A.DeepCopyInto h).1.mutate m)
            = (A.DeepCopyInto h).2.footprint.contents (A.DeepCopyInto h).1) := by
  obtain ⟨o1, ⟨s1, e1⟩, c1, f1, _⟩ := copyLocalObjectReference_grows h A.PortableClassReference
  obtain ⟨⟨s2, e2⟩, l2, c2, f2, _⟩ :=
    copyObjectReference_grows (copyLocalObjectReference h A.PortableClassReference).1
      A.ResourceReference
  apply isolation_core h _ _ _ hv
  · intro b hb
    simp only [ResourceClaimSpec.DeepCopyInto, ResourceClaimSpec.footprint,
      Option.mem_toList, Option.mem_def] at hb
    have := f2 b hb
    rw [o1] at this
    exact this
  · intro b hb
    simp only [ResourceClaimSpec.DeepCopyInto, ResourceClaimSpec.footprint,
      Option.mem_toList, Option.mem_def] at hb
    exact f1 b hb
  · intro b hb
    simp [ResourceClaimSpec.DeepCopyInto, ResourceClaimSpec.footprint] at hb
  · refine ⟨s2, ?_⟩
    simp only [ResourceClaimSpec.DeepCopyInto]
    rw [e2, o1]
  · refine ⟨s1, ?_⟩
    simp only [ResourceClaimSpec.DeepCopyInto]
    rw [l2, e1]
  · refine ⟨[], ?_⟩
    simp only [ResourceClaimSpec.DeepCopyInto]
    rw [c2, c1]
    simp

end deepcopy

namespace deepcopy

open v1alpha1

/-- C11 on a memory with two records: the claim reference and the provider
reference of the copy lead to records equal to the originals, and the absent
class reference stays absent. -/
theorem ResourceSpec_DeepCopy_fields_witness :
    ∃ out : ResourceSpec,
      (ResourceSpec.DeepCopy (some ⟨⟨"conn"⟩, some 0, none, some 1, [("reclaimPolicy", "Delete")]⟩)
          ⟨[⟨"v1", "Claim", "default", "c1"⟩, ⟨"v1", "Provider", "", "p1"⟩], [], []⟩).2 = some out
        ∧ out.ClaimReference.map
            (ResourceSpec.DeepCopy
              (some ⟨⟨"conn"⟩, some 0, none, some 1, [("reclaimPolicy", "Delete")]⟩)
              ⟨[⟨"v1", "Claim", "default", "c1"⟩, ⟨"v1", "Provider", "", "p1"⟩], [], []⟩).1.getObjectReference
            = some ⟨"v1", "Claim", "default", "c1"⟩
        ∧ out.NonPortableClassReference = none
        ∧ out.Others = [("reclaimPolicy", "Delete")] := by
  obtain ⟨⟨out, h1, _, h3, h4, _, _, _, _, h9⟩, _⟩ :=
    ResourceSpec_DeepCopy_fields ⟨⟨"conn"⟩, some 0, none, some 1, [("reclaimPolicy", "Delete")]⟩
      ⟨[⟨"v1", "Claim", "default", "c1"⟩, ⟨"v1", "Provider", "", "p1"⟩], [], []⟩
      (by simp [Footprint.valid, ResourceSpec.footprint])
  exact ⟨out, h1, h3, h4.mpr rfl, h9⟩

/-- C13 (clone isolation): for each of `ResourceSpec`, `ResourceStatus`,
`ResourceClaimSpec`, `ResourceClaimStatus`, `ConditionedStatus`,
`PortableClass` and `NonPortableClassSpecTemplate`, with `B := DeepCopy(A)` of
a value `A` whose pointers are in use: a write to a sequence element, to the
record of a nullable reference or to the timestamp of a condition reachable
from `B` leaves everything reachable from `A` as it was before the copy, and
such a write through `A` leaves everything reachable from `B` as it was. -/
theorem DeepCopy_isolation (h h' : Heap) :
    (∀ A B : ResourceSpec, A.footprint.valid h →
        ResourceSpec.DeepCopy (some A) h = (h', some B) →
        (∀ m : Mutation, m.within B.footprint →
            A.footprint.contents (h'.mutate m) = A.footprint.contents h)
          ∧ (∀ m : Mutation, m.within A.footprint →
            B.footprint.contents (h'.mutate m) = B.footprint.contents h'))
      ∧ (∀ A B : ResourceStatus, A.footprint.valid h →
        ResourceStatus.DeepCopy (some A) h = (h', some B) →
        (∀ m : Mutation, m.within B.footprint →
            A.footprint.contents (h'.mutate m) = A.footprint.contents h)
          ∧ (∀ m : Mutation, m.within A.footprint →
            B.footprint.contents (h'.mutate m) = B.footprint.contents h'))
      ∧ (∀ A B : ResourceClaimSpec, A.footprint.valid h →
        ResourceClaimSpec.DeepCopy (some A) h = (h', some B) →
        (∀ m : Mutation, m.within B.footprint →
            A.footprint.contents (h'.mutate m) = A.footprint.contents h)
          ∧ (∀ m : Mutation, m.within A.footprint →
            B.footprint.contents (h'.mutate m) = B.footprint.contents h'))
      ∧ (∀ A B : ResourceClaimStatus, A.footprint.valid h →
        ResourceClaimStatus.DeepCopy (some A) h = (h', some B) →
        (∀ m : Mutation, m.within B.footprint →
            A.footprint.contents (h'.mutate m) = A.footprint.contents h)
          ∧ (∀ m : Mutation, m.within A.footprint →
            B.footprint.contents (h'.mutate m) = B.footprint.contents h'))
      ∧ (∀ A B : ConditionedStatus, A.footprint.valid h →
        ConditionedStatus.DeepCopy (some A) h = (h', some B) →
        (∀ m : Mutation, m.within B.footprint →
            A.footprint.contents (h'.mutate m) = A.footprint.contents h)
          ∧ (∀ m : Mutation, m.within A.footprint →
            B.footprint.contents (h'.mutate m) = B.footprint.contents h'))
      ∧ (∀ A B : PortableClass, A.footprint.valid h →
        PortableClass.DeepCopy (some A) h = (h', some B) →
        (∀ m : Mutation, m.within B.footprint →
            A.footprint.contents (h'.mutate m) = A.footprint.contents h)
          ∧ (∀ m : Mutation, m.within A.footprint →
            B.footprint.contents (h'.mutate m) = B.footprint.contents h'))
      ∧ (∀ A B : NonPortableClassSpecTemplate, A.footprint.valid h →
        NonPortableClassSpecTemplate.DeepCopy (some A) h = (h', some B) →
        (∀ m : Mutation, m.within B.footprint →
            A.footprint.contents (h'.mutate m) = A.footprint.contents h)
          ∧ (∀ m : Mutation, m.within A.footprint →
            B.footprint.contents (h'.mutate m) = B.footprint.contents h')) := by
  refine ⟨?_, ?_, ?_, ?_, ?_, ?_, ?_⟩
  · intro A B hv hd
    simp only [ResourceSpec.DeepCopy, Prod.mk.injEq, Option.some.injEq] at hd
    obtain ⟨rfl, rfl⟩ := hd
    exact ResourceSpec_isolation A h hv
  · intro A B hv hd
    simp only [ResourceStatus.DeepCopy, Prod.mk.injEq, Option.some.injEq] at hd
    obtain ⟨rfl, rfl⟩ := hd
    exact ResourceStatus_isolation A h hv
  · intro A B hv hd
    simp only [ResourceClaimSpec.DeepCopy, Prod.mk.injEq, Option.some.injEq] at hd
    obtain ⟨rfl, rfl⟩ := hd
    exact ResourceClaimSpec_isolation A h hv
  · intro A B hv hd
    simp only [ResourceClaimStatus.DeepCopy, Prod.mk.injEq, Option.some.injEq] at hd
    obtain ⟨rfl, rfl⟩ := hd
    exact ResourceClaimStatus_isolation A h hv
  · intro A B hv hd
    simp only [ConditionedStatus.DeepCopy, Prod.mk.injEq, Option.some.injEq] at hd
    obtain ⟨rfl, rfl⟩ := hd
    exact ConditionedStatus_isolation A h hv
  · intro A B hv hd
    simp only [PortableClass.DeepCopy, Prod.mk.injEq, Option.some.injEq] at hd
    obtain ⟨rfl, rfl⟩ := hd
    exact PortableClass_isolation A h hv
  · intro A B hv hd
    simp only [NonPortableClassSpecTemplate.DeepCopy, Prod.mk.injEq, Option.some.injEq] at hd
    obtain ⟨rfl, rfl⟩ := hd
    exact NonPortableClassSpecTemplate_isolation A h hv

/-- C13 on a `ConditionedStatus` with one condition: after the copy, setting
the timestamp of the copy's condition to 99 leaves the original's condition
with its timestamp 10. -/
theorem DeepCopy_isolation_witness :
    (⟨some 0⟩ : ConditionedStatus).footprint.contents
        ((⟨[], [], [[⟨"Ready", .ConditionTrue, ⟨10⟩, "", ""⟩],
                     [⟨"Ready", .ConditionTrue, ⟨10⟩, "", ""⟩]]⟩ : Heap).mutate
          (.setLastTransitionTime 1 0 ⟨99⟩))
      = (⟨some 0⟩ : ConditionedStatus).footprint.contents
          ⟨[], [], [[⟨"Ready", .ConditionTrue, ⟨10⟩, "", ""⟩]]⟩
    ∧ (⟨[], [], [[⟨"Ready", .ConditionTrue, ⟨10⟩, "", ""⟩],
                   [⟨"Ready", .ConditionTrue, ⟨10⟩, "", ""⟩]]⟩ : Heap).mutate
          (.setLastTransitionTime 1 0 ⟨99⟩)
      = ⟨[], [], [[⟨"Ready", .ConditionTrue, ⟨10⟩, "", ""⟩],
                   [⟨"Ready", .ConditionTrue, ⟨99⟩, "", ""⟩]]⟩ :=
  ⟨((DeepCopy_isolation ⟨[], [], [[⟨"Ready", .ConditionTrue, ⟨10⟩, "", ""⟩]]⟩
      ⟨[], [], [[⟨"Ready", .ConditionTrue, ⟨10⟩, "", ""⟩],
                 [⟨"Ready", .ConditionTrue, ⟨10⟩, "", ""⟩]]⟩).2.2.2.2.1 ⟨some 0⟩ ⟨some 1⟩
      (by simp [Footprint.valid, ConditionedStatus.footprint]) (by rfl)).1
      (.setLastTransitionTime 1 0 ⟨99⟩)
      (by simp [Mutation.within, ConditionedStatus.footprint]),
   by rfl⟩

end deepcopy
